import Mathlib

/-!
A verification development for a wireless-sensor-network (WSN) protocol
simulator.  The repository's core is embedded shallowly:

* machine floats are modelled by exact rationals (`ℚ`);
* a Python object's identity is its index in the simulation's node list
  (the data model assigns each node a unique integer id equal to its
  creation index), so cross-references between nodes are `ℕ` indices;
* Euclidean distances are represented by their *squares* (`dist2`).
  The square root is strictly monotone on nonnegatives, so every
  comparison of distances in the source agrees with the comparison of
  the squared distances, and the radio-transmission cost only ever uses
  the square of the distance, which is rational.

Sources embedded: `utils/energy_model.py`, `core/node.py`,
`core/base_station.py`, `protocols/leach.py`, `protocols/pegasis.py`,
`protocols/gear.py`, `protocols/directed_diffusion.py`.
-/

namespace WSN

/-! ## Energy model (`utils/energy_model.py`)

The stateless `EnergyModel` constants and cost functions. -/

/-- `e_elec = 50e-9` J/bit, electronics energy. -/
def e_elec : ℚ := 50 / 1000000000

/-- `e_amp = 100e-12` J/bit/m², amplifier energy. -/
def e_amp : ℚ := 100 / 1000000000000

/-- `e_da = 5e-9` J/bit, data-aggregation energy. -/
def e_da : ℚ := 5 / 1000000000

/-- `e_sense = 5e-9` J/bit, sensing energy. -/
def e_sense : ℚ := 5 / 1000000000

/-- `EnergyModel.calculate_tx_energy(data_size, distance)`. -/
def calculate_tx_energy (data_size distance : ℚ) : ℚ :=
  e_elec * data_size + e_amp * data_size * distance ^ 2

/-- `EnergyModel.calculate_rx_energy(data_size)`. -/
def calculate_rx_energy (data_size : ℚ) : ℚ :=
  e_elec * data_size

/-- `EnergyModel.calculate_sensing_energy(data_size)`. -/
def calculate_sensing_energy (data_size : ℚ) : ℚ :=
  e_sense * data_size

/-- `EnergyModel.calculate_aggregation_energy(data_size)`. -/
def calculate_aggregation_energy (data_size : ℚ) : ℚ :=
  e_da * data_size

/-- Transmission cost expressed through the *squared* distance:
`calculate_tx_energy ds d = tx_cost_sq ds (d^2)`.  Protocol code computes a
Euclidean distance `d = sqrt(d2)` and passes it to `transmit`, whose cost
only uses `d^2 = d2`; the embedding therefore works with `d2` directly. -/
def tx_cost_sq (data_size d2 : ℚ) : ℚ :=
  e_elec * data_size + e_amp * data_size * d2

/-! ## Sensor node (`core/node.py`)

Node identity is the index in the simulation's node list; the `id` field
of the Python object equals that index.  The fields `data_queue` and
`protocol` are never read or written by the embedded operations and are
omitted. -/

structure SensorNode where
  px : ℚ
  py : ℚ
  energy : ℚ
  alive : Bool
  is_cluster_head : Bool := false
  cluster_head : Option ℕ := none
  neighbors : List ℕ := []
  deriving Repr, DecidableEq

instance : Inhabited SensorNode :=
  ⟨{ px := 0, py := 0, energy := 0, alive := false }⟩

/-- Position of a node as a pair. -/
def SensorNode.pos (n : SensorNode) : ℚ × ℚ := (n.px, n.py)

/-- Squared Euclidean distance between two positions
(`SensorNode.distance_to` squared; see the header note). -/
def dist2 (p q : ℚ × ℚ) : ℚ :=
  (p.1 - q.1) ^ 2 + (p.2 - q.2) ^ 2

/-- `SensorNode.transmit(data_size, distance)`: returns the updated node and
the success flag. -/
def transmit (n : SensorNode) (data_size distance : ℚ) : SensorNode × Bool :=
  if n.alive = false then (n, false)
  else
    let energy_cost := calculate_tx_energy data_size distance
    if energy_cost ≤ n.energy then
      let e := n.energy - energy_cost
      if e ≤ 0 then ({ n with energy := 0, alive := false }, true)
      else ({ n with energy := e }, true)
    else ({ n with energy := 0, alive := false }, false)

/-- `SensorNode.transmit` with the distance given by its square
(`transmit n ds (sqrt d2)`); the cost uses the square exactly. -/
def transmit_sq (n : SensorNode) (data_size d2 : ℚ) : SensorNode × Bool :=
  if n.alive = false then (n, false)
  else
    let energy_cost := tx_cost_sq data_size d2
    if energy_cost ≤ n.energy then
      let e := n.energy - energy_cost
      if e ≤ 0 then ({ n with energy := 0, alive := false }, true)
      else ({ n with energy := e }, true)
    else ({ n with energy := 0, alive := false }, false)

/-- `SensorNode.receive(data_size)`. -/
def receive (n : SensorNode) (data_size : ℚ) : SensorNode × Bool :=
  if n.alive = false then (n, false)
  else
    let energy_cost := calculate_rx_energy data_size
    if energy_cost ≤ n.energy then
      let e := n.energy - energy_cost
      if e ≤ 0 then ({ n with energy := 0, alive := false }, true)
      else ({ n with energy := e }, true)
    else ({ n with energy := 0, alive := false }, false)

/-- `SensorNode.sense(data_size)`. -/
def sense (n : SensorNode) (data_size : ℚ) : SensorNode × Bool :=
  if n.alive = false then (n, false)
  else
    let energy_cost := calculate_sensing_energy data_size
    if energy_cost ≤ n.energy then
      let e := n.energy - energy_cost
      if e ≤ 0 then ({ n with energy := 0, alive := false }, true)
      else ({ n with energy := e }, true)
    else ({ n with energy := 0, alive := false }, false)

/-- `SensorNode.aggregate_data(data_size)`. -/
def aggregate_data (n : SensorNode) (data_size : ℚ) : SensorNode × Bool :=
  if n.alive = false then (n, false)
  else
    let energy_cost := calculate_aggregation_energy data_size
    if energy_cost ≤ n.energy then
      let e := n.energy - energy_cost
      if e ≤ 0 then ({ n with energy := 0, alive := false }, true)
      else ({ n with energy := e }, true)
    else ({ n with energy := 0, alive := false }, false)

/-! Sequences of energy-consuming operations on a single node, used to state
the lifecycle invariants. -/

/-- One energy-consuming call on a node, with its arguments. -/
inductive NodeOp where
  | tx (data_size distance : ℚ)
  | rx (data_size : ℚ)
  | sn (data_size : ℚ)
  | ag (data_size : ℚ)
  deriving Repr, DecidableEq

/-- Apply one operation. -/
def applyOp (n : SensorNode) : NodeOp → SensorNode × Bool
  | NodeOp.tx ds d => transmit n ds d
  | NodeOp.rx ds => receive n ds
  | NodeOp.sn ds => sense n ds
  | NodeOp.ag ds => aggregate_data n ds

/-- The `data_size` argument of an operation. -/
def NodeOp.dataSize : NodeOp → ℚ
  | NodeOp.tx ds _ => ds
  | NodeOp.rx ds => ds
  | NodeOp.sn ds => ds
  | NodeOp.ag ds => ds

/-- Run a sequence of operations, keeping the node state. -/
def runOps (n : SensorNode) (ops : List NodeOp) : SensorNode :=
  ops.foldl (fun m o => (applyOp m o).1) n

/-- The cost charged by an operation. -/
def NodeOp.cost : NodeOp → ℚ
  | NodeOp.tx ds d => calculate_tx_energy ds d
  | NodeOp.rx ds => calculate_rx_energy ds
  | NodeOp.sn ds => calculate_sensing_energy ds
  | NodeOp.ag ds => calculate_aggregation_energy ds

/-! ## Node-list helpers

The simulation stores its nodes in a list; a node reference is the index
into that list. -/

/-- Read node `i` (total, with a default dead node out of range). -/
def getN (ns : List SensorNode) (i : ℕ) : SensorNode := ns.getD i default

/-- Write node `i`. -/
def setN (ns : List SensorNode) (i : ℕ) (n : SensorNode) : List SensorNode :=
  ns.set i n

/-- First strict minimiser of `f` over a list, together with its value:
the translation of the source pattern `m = inf; for x in l: if f x < m: …`
(ties keep the earlier element; `none` exactly on the empty list). -/
def firstMinAux (f : ℕ → ℚ) (best : ℕ × ℚ) : List ℕ → ℕ × ℚ
  | [] => best
  | i :: t =>
      if f i < best.2 then firstMinAux f (i, f i) t else firstMinAux f best t

/-- See `firstMinAux`. -/
def firstMinBy (f : ℕ → ℚ) : List ℕ → Option (ℕ × ℚ)
  | [] => none
  | i :: t => some (firstMinAux f (i, f i) t)

/-- The translation of the source pattern
`m = -1; s = None; for x in l: if f x > m: m, s = f x, x` used by PEGASIS
to pick the node furthest from the base station. -/
def maxScan (f : ℕ → ℚ) : Option ℕ → ℚ → List ℕ → Option ℕ × ℚ
  | cur, curv, [] => (cur, curv)
  | cur, curv, i :: t =>
      if f i > curv then maxScan f (some i) (f i) t else maxScan f cur curv t

/-! ## LEACH (`protocols/leach.py`)

Randomness: `random.random()` yields uniform draws in `[0,1)`; the draws
are modelled as a stream `draws : ℕ → ℚ` consumed in program order (one
draw per live node during election, which is the only random use in
`setup_phase`). -/

/-- The election threshold of `setup_phase` (line 58):
`t = p / (1 - p * (current_round % int(1/p)))`.  Python's `int()`
truncates toward zero, which on the positive `1/p` is the floor. -/
def leachThreshold (p : ℚ) (round : ℕ) : ℚ :=
  p / (1 - p * ((round % (Int.toNat ⌊1/p⌋) : ℕ) : ℚ))

/-- Modelled from the spec's words for the refinement comparison of C4:
the threshold with the *ceiling* `⌈1/p⌉` the spec states, in place of the
code's `int(1/p)` truncation. -/
def leachThresholdSpecC4 (p : ℚ) (round : ℕ) : ℚ :=
  p / (1 - p * ((round % (Int.toNat ⌈1/p⌉) : ℕ) : ℚ))

/-- `setup_phase` lines 47–50: reset every node's cluster-head state. -/
def leachReset (ns : List SensorNode) : List SensorNode :=
  ns.map fun n => { n with is_cluster_head := false, cluster_head := none }

/-- Election loop (`setup_phase` lines 53–61) over the index list `rest`,
with `k` the number of draws consumed so far and `chs` the accumulated
`cluster_heads`. -/
def leachElectGo (p : ℚ) (round : ℕ) (draws : ℕ → ℚ) :
    List ℕ → List SensorNode → ℕ → List ℕ → List SensorNode × List ℕ × ℕ
  | [], ns, k, chs => (ns, chs, k)
  | i :: rest, ns, k, chs =>
      let n := getN ns i
      if n.alive = false then leachElectGo p round draws rest ns k chs
      else if draws k < leachThreshold p round then
        leachElectGo p round draws rest
          (setN ns i { n with is_cluster_head := true }) (k + 1) (chs ++ [i])
      else leachElectGo p round draws rest ns (k + 1) chs

/-- Cluster-head election over all nodes in iteration order. -/
def leachElect (p : ℚ) (round : ℕ) (draws : ℕ → ℚ) (ns : List SensorNode) :
    List SensorNode × List ℕ :=
  let r := leachElectGo p round draws (List.range ns.length) ns 0 []
  (r.1, r.2.1)

/-- Broadcast by one cluster head (`setup_phase` lines 64–69): the head
transmits a 50-bit message toward every *other* currently-live node. -/
def leachBroadcastOne (ns : List SensorNode) (ch : ℕ) : List SensorNode :=
  (List.range ns.length).foldl
    (fun ns j =>
      if j ≠ ch ∧ (getN ns j).alive = true then
        setN ns ch
          (transmit_sq (getN ns ch) 50 (dist2 (getN ns ch).pos (getN ns j).pos)).1
      else ns) ns

/-- Broadcast by every elected head, in election order. -/
def leachBroadcast (ns : List SensorNode) (chs : List ℕ) : List SensorNode :=
  chs.foldl leachBroadcastOne ns

/-- `clusters[ch].append(i)` on the insertion-ordered association list
modelling the `defaultdict(list)`. -/
def addMember : List (ℕ × List ℕ) → ℕ → ℕ → List (ℕ × List ℕ)
  | [], ch, i => [(ch, [i])]
  | (k, ms) :: t, ch, i =>
      if k = ch then (k, ms ++ [i]) :: t else (k, ms) :: addMember t ch i

/-- `clusters[ch]` read (empty for an absent key, as `defaultdict`). -/
def getMembers (cs : List (ℕ × List ℕ)) (ch : ℕ) : List ℕ :=
  match cs.find? (fun e => e.1 = ch) with
  | some e => e.2
  | none => []

/-- Join loop (`setup_phase` lines 72–91): every live non-head node finds
the nearest elected head by scanning `cluster_heads` (strict `<`, first
wins), stores it, is appended to that head's cluster, transmits the 50-bit
join message over that distance, and the head's `receive(50)` is invoked. -/
def leachJoinStep (chs : List ℕ) (ns : List SensorNode)
    (cs : List (ℕ × List ℕ)) (i : ℕ) :
    List SensorNode × List (ℕ × List ℕ) :=
  let n := getN ns i
  if n.alive = false ∨ n.is_cluster_head = true then (ns, cs)
  else
    match firstMinBy (fun ch => dist2 n.pos (getN ns ch).pos) chs with
    | none => (ns, cs)
    | some (ch, m) =>
        let n1 := { n with cluster_head := some ch }
        let ns1 := setN ns i n1
        let cs1 := addMember cs ch i
        let ns2 := setN ns1 i (transmit_sq n1 50 m).1
        let ns3 := setN ns2 ch (receive (getN ns2 ch) 50).1
        (ns3, cs1)

def leachJoinGo (chs : List ℕ) :
    List ℕ → List SensorNode → List (ℕ × List ℕ) →
      List SensorNode × List (ℕ × List ℕ)
  | [], ns, cs => (ns, cs)
  | i :: rest, ns, cs =>
      let s := leachJoinStep chs ns cs i
      leachJoinGo chs rest s.1 s.2

/-- The members that the join loop assigns to head `c`: the live non-head
nodes of `idxs` whose nearest elected head (first strict minimiser over
`chs`) is `c`. -/
def joinFilter (chs : List ℕ) (ns : List SensorNode) (idxs : List ℕ)
    (c : ℕ) : List ℕ :=
  idxs.filter fun i =>
    (getN ns i).alive && !(getN ns i).is_cluster_head &&
      decide ((firstMinBy (fun x => dist2 (getN ns i).pos (getN ns x).pos)
        chs).map Prod.fst = some c)

/-- TDMA schedule of one head (`setup_phase` lines 94–103): a dead head is
skipped; otherwise it transmits a 100-bit schedule to each member, and the
member's `receive(100)` is invoked. -/
def leachTDMAOne (cs : List (ℕ × List ℕ)) (ns : List SensorNode) (ch : ℕ) :
    List SensorNode :=
  if (getN ns ch).alive = false then ns
  else
    (getMembers cs ch).foldl
      (fun ns i =>
        let ns1 := setN ns ch
          (transmit_sq (getN ns ch) 100 (dist2 (getN ns ch).pos (getN ns i).pos)).1
        setN ns1 i (receive (getN ns1 i) 100).1) ns

/-- TDMA phase over all heads. -/
def leachTDMA (cs : List (ℕ × List ℕ)) (ns : List SensorNode) (chs : List ℕ) :
    List SensorNode :=
  chs.foldl (leachTDMAOne cs) ns

/-- The node list and cluster structure after `LEACH.setup_phase`. -/
structure LeachState where
  nodes : List SensorNode
  cluster_heads : List ℕ
  clusters : List (ℕ × List ℕ)
  deriving Repr, DecidableEq

/-- Nodes and clusters after election and broadcast, before the join loop. -/
def leachAfterBroadcast (p : ℚ) (round : ℕ) (draws : ℕ → ℚ)
    (ns0 : List SensorNode) : List SensorNode × List ℕ :=
  let ns1 := leachReset ns0
  let r := leachElect p round draws ns1
  (leachBroadcast r.1 r.2, r.2)

/-- `LEACH.setup_phase` (lines 41–105): reset, election, head broadcast,
joining, TDMA scheduling. -/
def leachSetupPhase (p : ℚ) (round : ℕ) (draws : ℕ → ℚ)
    (ns0 : List SensorNode) : LeachState :=
  let r := leachAfterBroadcast p round draws ns0
  let j := leachJoinGo r.2 (List.range r.1.length) r.1 []
  ⟨leachTDMA j.2 j.1 r.2, r.2, j.2⟩

/-- Number of live nodes among the elements of `rest` scanned before the
first occurrence of `i`: the index of the election draw consumed for `i`. -/
def liveRankIn (ns : List SensorNode) (i : ℕ) : List ℕ → ℕ
  | [] => 0
  | j :: t =>
      if j = i then 0
      else (if (getN ns j).alive = true then 1 else 0) + liveRankIn ns i t

/-! ## PEGASIS (`protocols/pegasis.py`)

`construct_chain` (lines 44–81) is pure: it reads only positions and alive
flags.  The Python `remaining_nodes` is a `set`; since the inner loop keeps
a strict minimum over *all* remaining nodes, the chain's greedy property is
independent of the set's iteration order, which the embedding fixes to the
node-index order. -/

/-- The greedy tail of the chain: repeatedly append the remaining node
nearest to the current chain end (`construct_chain`'s `while` loop).  Each
iteration removes exactly one remaining node, so `remaining.length` steps
run the loop to exhaustion. -/
def pegasisGreedy (ns : List SensorNode) : ℕ → ℕ → List ℕ → List ℕ
  | 0, _, _ => []
  | fuel + 1, last, remaining =>
      match firstMinBy
          (fun i => dist2 (getN ns last).pos (getN ns i).pos) remaining with
      | none => []
      | some (nxt, _) =>
          nxt :: pegasisGreedy ns fuel nxt (remaining.erase nxt)

/-- `PEGASIS.construct_chain`: start from the live node furthest from the
base station (`max_distance = -1`, strict `>`), then greedily append the
nearest not-yet-included live node. -/
def construct_chain (ns : List SensorNode) (bs : ℚ × ℚ) : List ℕ :=
  let alive_idx := (List.range ns.length).filter fun i => (getN ns i).alive
  match (maxScan (fun i => dist2 (getN ns i).pos bs) none (-1) alive_idx).1 with
  | none => []
  | some s => s :: pegasisGreedy ns (alive_idx.erase s).length s (alive_idx.erase s)

/-- The chain tail `c` visits exactly the pool `remaining`, always stepping
to a remaining node at minimal distance from the previous chain end. -/
def isGreedyChain (ns : List SensorNode) : ℕ → List ℕ → List ℕ → Prop
  | _, remaining, [] => remaining = []
  | last, remaining, x :: rest =>
      x ∈ remaining ∧
      (∀ y ∈ remaining, dist2 (getN ns last).pos (getN ns x).pos ≤
        dist2 (getN ns last).pos (getN ns y).pos) ∧
      isGreedyChain ns x (remaining.erase x) rest

/-! ## Base station (`core/base_station.py`) -/

structure BaseStation where
  pos : ℚ × ℚ
  data_received : ℚ := 0
  packets_received : ℕ := 0
  deriving Repr, DecidableEq

/-- `BaseStation.receive_data(data_size)`. -/
def receive_data (b : BaseStation) (data_size : ℚ) : BaseStation :=
  { b with data_received := b.data_received + data_size,
           packets_received := b.packets_received + 1 }

/-! ## Directed Diffusion (`protocols/directed_diffusion.py`)

Python `dict`s (`gradients`, `events_detected`) are embedded as
insertion-ordered association lists with unique keys: `lookupA` is `d[k]`,
`setKey` is `d[k] = v` (in-place overwrite or append), `eraseKey` is
`del d[k]` (removes the single binding). -/

def lookupA {α : Type} (k : ℕ) : List (ℕ × α) → Option α
  | [] => none
  | (k', v) :: t => if k' = k then some v else lookupA k t

def eraseKey {α : Type} (k : ℕ) : List (ℕ × α) → List (ℕ × α)
  | [] => []
  | (k', v) :: t => if k' = k then t else (k', v) :: eraseKey k t

def setKey {α : Type} (k : ℕ) (v : α) : List (ℕ × α) → List (ℕ × α)
  | [] => [(k, v)]
  | (k', v') :: t => if k' = k then (k', v) :: t else (k', v') :: setKey k v t

/-- Protocol state: nodes, sink, packet size, `gradients`
(node → (neighbor → weight)), `events_detected` (node id → detection time). -/
structure DDState where
  nodes : List SensorNode
  bs : BaseStation
  packet_size : ℚ
  gradients : List (ℕ × List (ℕ × ℚ))
  events_detected : List (ℕ × ℚ)
  deriving Repr, DecidableEq

/-- `deliver_data` lines 125–131: the unvisited live gradient neighbour of
maximal weight (`max_gradient = 0`, strict `>`). -/
def ddNextHop (ns : List SensorNode) (visited : List ℕ)
    (glist : List (ℕ × ℚ)) : Option ℕ × ℚ :=
  glist.foldl
    (fun acc e =>
      if (getN ns e.1).alive = true ∧ e.1 ∉ visited ∧ e.2 > acc.2
      then (some e.1, e.2) else acc)
    (none, 0)

/-- The gradient-descent forwarding loop of `deliver_data` (lines 120–157);
`fuel` bounds the `while True` loop (each iteration adds a fresh node to
`visited`, so any `fuel ≥ nodes.length` is exhaustive; the claims proved
below hold for every `fuel`). -/
def ddForward (bs_pos : ℚ × ℚ) (packet_size : ℚ)
    (gradients : List (ℕ × List (ℕ × ℚ))) :
    ℕ → ℕ → List ℕ → List SensorNode → BaseStation →
      List SensorNode × BaseStation
  | 0, _, _, ns, bs => (ns, bs)
  | fuel + 1, current, visited, ns, bs =>
      match lookupA current gradients with
      | none => (ns, bs)
      | some glist =>
          match ddNextHop ns visited glist with
          | (none, _) => (ns, bs)
          | (some nxt, _) =>
              let d2c := dist2 (getN ns current).pos (getN ns nxt).pos
              let tr := transmit_sq (getN ns current) packet_size d2c
              let ns1 := setN ns current tr.1
              if tr.2 = false then (ns1, bs)
              else
                let rc := receive (getN ns1 nxt) packet_size
                let ns2 := setN ns1 nxt rc.1
                if rc.2 = false then (ns2, bs)
                else
                  let dbs := dist2 (getN ns2 nxt).pos bs_pos
                  if dbs ≤ 400 then
                    let tb := transmit_sq (getN ns2 nxt) packet_size dbs
                    let ns3 := setN ns2 nxt tb.1
                    if tb.2 = true then (ns3, receive_data bs packet_size)
                    else (ns3, bs)
                  else ddForward bs_pos packet_size gradients fuel nxt
                    (visited ++ [nxt]) ns2 bs

/-- One iteration of `deliver_data`'s `for` loop over the snapshot of
`events_detected.items()`: an entry older than 50 time units is deleted and
nothing else happens; otherwise, if the detecting node exists and is alive,
the data is forwarded along gradients. -/
def deliverStep (now : ℚ) (fuel : ℕ) (s : DDState) (e : ℕ × ℚ) : DDState :=
  if now - e.2 > 50 then
    { s with events_detected := eraseKey e.1 s.events_detected }
  else
    if e.1 < s.nodes.length ∧ (getN s.nodes e.1).alive = true then
      let r := ddForward s.bs.pos s.packet_size s.gradients fuel e.1 [e.1]
        s.nodes s.bs
      { s with nodes := r.1, bs := r.2 }
    else s

/-- `DirectedDiffusion.deliver_data` (lines 102–159): fold the step over the
snapshot taken by `list(self.events_detected.items())`. -/
def deliver_data (now : ℚ) (fuel : ℕ) (s : DDState) : DDState :=
  s.events_detected.foldl (deliverStep now fuel) s

/-- `detect_events` loop (lines 95–98) over the index list, threading the
uniform-draw counter `k`: a draw is consumed only for a live node
(short-circuit of `node.alive and random.random() < 0.01`). -/
def detectGo (now : ℚ) (draws : ℕ → ℚ) (ps : ℚ) :
    List ℕ → List SensorNode → List (ℕ × ℚ) → ℕ →
      List SensorNode × List (ℕ × ℚ)
  | [], ns, ev, _ => (ns, ev)
  | i :: rest, ns, ev, k =>
      if (getN ns i).alive = true then
        if draws k < 1/100 then
          detectGo now draws ps rest (setN ns i (sense (getN ns i) ps).1)
            (setKey i now ev) (k + 1)
        else detectGo now draws ps rest ns ev (k + 1)
      else detectGo now draws ps rest ns ev k

/-- `DirectedDiffusion.detect_events` (lines 93–100). -/
def detect_events (now : ℚ) (draws : ℕ → ℚ) (s : DDState) : DDState :=
  let r := detectGo now draws s.packet_size (List.range s.nodes.length)
    s.nodes s.events_detected 0
  { s with nodes := r.1, events_detected := r.2 }

/-! ## GEAR (`protocols/gear.py`)

`discover_route` (lines 69–149).  The candidate sort key
`progress * neighbor.energy` uses *differences of Euclidean distances*
(square roots, irrational in general), so it cannot be computed in `ℚ`;
the embedding abstracts the stable descending sort as a parameter
`reorder` constrained (in every theorem) to permute its input.  Every
property claimed of `discover_route` is independent of the expansion
order.  The BFS `queue`, the `visited` id set and the `prev` map are
embedded as lists (`visited` is append-only and insertion-ordered;
membership is what the source uses). -/

/-- Lines 85–94: the live node closest to `start_pos`
(`min_distance = inf`, strict `<`, first wins), `none` iff no live node. -/
def gearClosest (ns : List SensorNode) (start_pos : ℚ × ℚ) : Option ℕ :=
  (firstMinBy (fun i => dist2 (getN ns i).pos start_pos)
    ((List.range ns.length).filter fun i => (getN ns i).alive)).map Prod.fst

/-- Lines 117–133: the live, unvisited neighbours of `current`. -/
def gearCandidates (ns : List SensorNode) (visited : List ℕ) (current : ℕ) :
    List ℕ :=
  (getN ns current).neighbors.filter fun nb =>
    (getN ns nb).alive && !(visited.contains nb)

/-- Lines 139–147: enqueue each (sorted) candidate, mark it visited, record
its parent, and pay the 50-bit control message
(`current.transmit(50, d)`, `neighbor.receive(50)`). -/
def gearExpand (current : ℕ) :
    List ℕ → List SensorNode → List ℕ → List ℕ → List (ℕ × ℕ) →
      List SensorNode × List ℕ × List ℕ × List (ℕ × ℕ)
  | [], ns, queue, visited, prev => (ns, queue, visited, prev)
  | nb :: rest, ns, queue, visited, prev =>
      let d2c := dist2 (getN ns current).pos (getN ns nb).pos
      let ns1 := setN ns current (transmit_sq (getN ns current) 50 d2c).1
      let ns2 := setN ns1 nb (receive (getN ns1 nb) 50).1
      gearExpand current rest ns2 (queue ++ [nb]) (visited ++ [nb])
        (setKey nb current prev)

/-- Lines 108–113: walk the `prev` chain from `cur` back to `start`,
building the path in discovery-reversed order (the caller reverses it).
`fuel` bounds the `while`; the `prev` structure makes it strictly
decreasing in discovery order, so `fuel ≥ |visited|` is exhaustive. -/
def gearReconstruct (prev : List (ℕ × ℕ)) (start : ℕ) :
    ℕ → ℕ → List ℕ
  | 0, cur => [cur]
  | fuel + 1, cur =>
      if cur = start then [cur]
      else
        match lookupA cur prev with
        | none => [cur]
        | some p => cur :: gearReconstruct prev start fuel p

/-- The `while queue:` loop of `discover_route` (lines 103–147). -/
def gearLoop (reorder : List SensorNode → ℕ → List ℕ → List ℕ)
    (target start : ℕ) :
    ℕ → List SensorNode → List ℕ → List ℕ → List (ℕ × ℕ) →
      Option (List ℕ) × List SensorNode
  | 0, ns, _, _, _ => (none, ns)
  | _ + 1, ns, [], _, _ => (none, ns)
  | fuel + 1, ns, cur :: rest, visited, prev =>
      if cur = target then
        (some (gearReconstruct prev start ns.length cur).reverse, ns)
      else
        let cands := gearCandidates ns visited cur
        let r := gearExpand cur (reorder ns cur cands) ns rest visited prev
        gearLoop reorder target start fuel r.1 r.2.1 r.2.2.1 r.2.2.2

/-- `GEAR.discover_route(start_pos, target_node)`: pick the live node
closest to `start_pos`, run the search, return the route (or `none`) and
the mutated node list. -/
def discover_route (reorder : List SensorNode → ℕ → List ℕ → List ℕ)
    (ns : List SensorNode) (start_pos : ℚ × ℚ) (target : ℕ) (fuel : ℕ) :
    Option (List ℕ) × List SensorNode :=
  match gearClosest ns start_pos with
  | none => (none, ns)
  | some s => gearLoop reorder target s fuel ns [s] [s] []

/-- All elements of a forward route are live and consecutive ones are
neighbours. -/
def chainAdj (ns : List SensorNode) : List ℕ → Prop
  | [] => True
  | [_] => True
  | a :: b :: t => b ∈ (getN ns a).neighbors ∧ chainAdj ns (b :: t)

/-- A path of live nodes following neighbour edges. -/
def isLivePath (ns : List SensorNode) : List ℕ → Prop
  | [] => False
  | [x] => (getN ns x).alive = true
  | x :: y :: t => (getN ns x).alive = true ∧ y ∈ (getN ns x).neighbors ∧
      isLivePath ns (y :: t)

/-- Consecutive elements of a reconstruction chain (child first) are
child-in-parent's-neighbour-list pairs. -/
def prevChainAdj (ns : List SensorNode) : List ℕ → Prop
  | [] => True
  | [_] => True
  | a :: b :: t => a ∈ (getN ns b).neighbors ∧ prevChainAdj ns (b :: t)

/-- The indices of the nodes that are alive in `ns`, in index order. -/
def liveIdx (ns : List SensorNode) : List ℕ :=
  (List.range ns.length).filter fun i => (getN ns i).alive

/-- Structure of the BFS parent map: every visited node except the root
has a parent that was discovered strictly earlier and whose neighbour list
contains it. -/
def PrevOK (ns0 : List SensorNode) (s : ℕ) (visited : List ℕ)
    (prev : List (ℕ × ℕ)) : Prop :=
  visited.Nodup ∧ s ∈ visited ∧ lookupA s prev = none ∧
  ∀ v ∈ visited, v ≠ s → ∃ p, lookupA v prev = some p ∧ p ∈ visited ∧
    v ∈ (getN ns0 p).neighbors ∧ visited.indexOf p < visited.indexOf v

/-- The loop invariant of `gearLoop`, relative to the call-time node list
`ns0` and the start node `s`. -/
def GearInv (ns0 : List SensorNode) (s target : ℕ) (ns : List SensorNode)
    (queue visited : List ℕ) (prev : List (ℕ × ℕ)) : Prop :=
  (∀ i, i ∉ visited → getN ns i = getN ns0 i) ∧
  (∀ q ∈ queue, q ∈ visited) ∧
  (∀ v ∈ visited, (getN ns0 v).alive = true) ∧
  (∀ v ∈ visited, v ∈ queue ∨
    ∀ nb ∈ (getN ns0 v).neighbors, (getN ns0 nb).alive = true →
      nb ∈ visited) ∧
  visited.Nodup ∧
  PrevOK ns0 s visited prev ∧
  (target ∈ visited → target ∈ queue) ∧
  (∀ i, (getN ns i).neighbors = (getN ns0 i).neighbors) ∧
  ns.length = ns0.length

/-! ## The simulation driver (C9)

The repository's simulation driver (`core/simulation.py`, the `Simulation`
class with `run()`) is not present under `src/`; only the protocol and
node modules are.  The driver below is therefore modelled from the spec
(configuration record, node creation, neighbour-graph construction,
round-based protocol stepping, fixed 10-unit metrics sampling cadence,
and the metrics record of `Simulation.run()`), reusing the embedded
protocol step functions for the per-round work.  Every definition is a
pure function: the seeded pseudo-random stream is an explicit generator
state threaded in a fixed order, so the model has no hidden source of
nondeterminism — which is exactly the property the spec claims. -/

/-- Modelled from the spec: the protocol selector of the configuration
record (`protocol_type ∈ {LEACH, DirectedDiffusion, GEAR, PEGASIS}`). -/
inductive ProtocolType
  | leach
  | directed_diffusion
  | gear
  | pegasis
  deriving Repr, DecidableEq

/-- Modelled from the spec: the configuration record consumed by
`Simulation` — width, height, num_nodes, base_station_position,
comm_range, simulation_time, packet_size, seed, protocol_type, and the
protocol parameter (LEACH's `p`). -/
structure SimConfig where
  width : ℚ
  height : ℚ
  num_nodes : ℕ
  base_station_position : ℚ × ℚ
  comm_range : ℚ
  simulation_time : ℕ
  packet_size : ℚ
  seed : ℕ
  protocol_type : ProtocolType
  p_ch : ℚ
  deriving Repr, DecidableEq

/-- Modelled from the spec: the randomness source is seeded once per
simulation and consumed in a fixed, reproducible order; embedded as a
32-bit linear congruential generator stepped from the seed. -/
def lcgNext (st : ℕ) : ℕ := (1664525 * st + 1013904223) % 4294967296

/-- Modelled from the spec: the state of the seeded generator after
`k + 1` steps. -/
def lcg (seed : ℕ) : ℕ → ℕ
  | 0 => lcgNext seed
  | k + 1 => lcgNext (lcg seed k)

/-- Modelled from the spec: the `k`-th uniform draw in `[0, 1)` of the
per-simulation stream. -/
def lcgDraw (seed k : ℕ) : ℚ := (lcg seed k : ℚ) / 4294967296

/-- Modelled from the spec: node creation at simulation setup —
`num_nodes` nodes at seeded uniform positions in the width × height
field, full energy, alive. -/
def mkNodes (cfg : SimConfig) : List SensorNode :=
  (List.range cfg.num_nodes).map fun i =>
    { px := lcgDraw cfg.seed (2 * i) * cfg.width,
      py := lcgDraw cfg.seed (2 * i + 1) * cfg.height,
      energy := 1, alive := true }

/-- Modelled from the spec: the neighbour graph, computed once at setup
from pairwise distance ≤ communication range (squared on both sides). -/
def addNeighbors (cfg : SimConfig) (ns : List SensorNode) :
    List SensorNode :=
  (List.range ns.length).map fun i =>
    { getN ns i with
        neighbors := (List.range ns.length).filter fun j =>
          decide (j ≠ i) &&
            decide (dist2 (getN ns i).pos (getN ns j).pos ≤
              cfg.comm_range ^ 2) }

/-- Modelled from the spec: the mutable simulation state threaded through
the rounds — the node list, the base station, and Directed Diffusion's
pending event table. -/
structure SimState where
  nodes : List SensorNode
  bs : BaseStation
  events : List (ℕ × ℚ)
  deriving Repr, DecidableEq

/-- Modelled from the spec: the block of uniform draws consumed by round
`r` (after the `2·num_nodes` draws used for node placement), in index
order — a fixed, reproducible draw order. -/
def simDraws (cfg : SimConfig) (r : ℕ) : ℕ → ℚ :=
  fun k => lcgDraw cfg.seed (2 * cfg.num_nodes + cfg.num_nodes * r + k)

/-- Modelled from the spec: one protocol round at simulated time `10·r`,
dispatched on `protocol_type` and reusing the embedded per-protocol step
functions (`leachSetupPhase`, `construct_chain`, `detect_events` /
`deliver_data`, `discover_route`). -/
def roundStep (cfg : SimConfig) (r : ℕ) (st : SimState) : SimState :=
  match cfg.protocol_type with
  | ProtocolType.leach =>
      ⟨(leachSetupPhase cfg.p_ch r (simDraws cfg r) st.nodes).nodes,
        st.bs, st.events⟩
  | ProtocolType.pegasis =>
      match construct_chain st.nodes cfg.base_station_position with
      | [] => st
      | leader :: _ =>
          let t := transmit_sq (getN st.nodes leader) cfg.packet_size
            (dist2 (getN st.nodes leader).pos cfg.base_station_position)
          ⟨setN st.nodes leader t.1,
            if t.2 then receive_data st.bs cfg.packet_size else st.bs,
            st.events⟩
  | ProtocolType.directed_diffusion =>
      let dd : DDState :=
        ⟨st.nodes, st.bs, cfg.packet_size, [], st.events⟩
      let dd1 := detect_events (10 * (r : ℚ)) (simDraws cfg r) dd
      let dd2 := deliver_data (10 * (r : ℚ)) st.nodes.length dd1
      ⟨dd2.nodes, dd2.bs, dd2.events_detected⟩
  | ProtocolType.gear =>
      let rt := discover_route (fun _ _ l => l) st.nodes
        cfg.base_station_position 0 st.nodes.length
      ⟨rt.2,
        match rt.1 with
        | some _ => receive_data st.bs cfg.packet_size
        | none => st.bs,
        st.events⟩

/-- Modelled from the spec: the state after `r` protocol rounds, starting
from the freshly created node set and an untouched base station. -/
def simRounds (cfg : SimConfig) : ℕ → SimState
  | 0 => ⟨addNeighbors cfg (mkNodes cfg),
      { pos := cfg.base_station_position }, []⟩
  | r + 1 => roundStep cfg r (simRounds cfg r)

/-- Number of live nodes (the `alive_nodes` sample). -/
def aliveCount (ns : List SensorNode) : ℕ := (liveIdx ns).length

/-- Total residual energy (the `energy_levels` sample). -/
def totalEnergy (ns : List SensorNode) : ℚ :=
  (ns.map SensorNode.energy).sum

/-- Modelled from the spec: the metrics record returned by
`Simulation.run()`. -/
structure Metrics where
  alive_nodes : List ℕ
  energy_levels : List ℚ
  time_points : List ℕ
  packets_delivered : ℕ
  total_energy_consumed : ℚ
  network_lifetime : ℕ
  deriving Repr, DecidableEq

/-- Modelled from the spec: `Simulation.run()` — run one protocol round
per 10-unit sampling interval, sample the metrics at every interval
boundary, and assemble the metrics record (`network_lifetime` is the
first sampled time with zero live nodes, `0` if the network survives). -/
def runSimulation (cfg : SimConfig) : Metrics :=
  let nrounds := cfg.simulation_time / 10
  let pts := List.range (nrounds + 1)
  let final := simRounds cfg nrounds
  { alive_nodes := pts.map fun r => aliveCount (simRounds cfg r).nodes,
    energy_levels := pts.map fun r => totalEnergy (simRounds cfg r).nodes,
    time_points := pts.map fun r => 10 * r,
    packets_delivered := final.bs.packets_received,
    total_energy_consumed :=
      totalEnergy (simRounds cfg 0).nodes - totalEnergy final.nodes,
    network_lifetime :=
      match (pts.filter fun r =>
          aliveCount (simRounds cfg r).nodes == 0).head? with
      | some r => 10 * r
      | none => 0 }

end WSN

namespace WSN

/-! ## Lemmas about single node operations -/

theorem getN_set_self (ns : List SensorNode) (i : ℕ) (n : SensorNode)
    (h : i < ns.length) : getN (setN ns i n) i = n := by
  simp [getN, setN, List.getD, List.getElem?_set_self', List.getElem?_eq_getElem h]

theorem getN_set_ne (ns : List SensorNode) (i j : ℕ) (n : SensorNode)
    (h : i ≠ j) : getN (setN ns i n) j = getN ns j := by
  simp [getN, setN, List.getD, List.getElem?_set_ne h]

theorem length_setN (ns : List SensorNode) (i : ℕ) (n : SensorNode) :
    (setN ns i n).length = ns.length := by
  simp [setN]

theorem applyOp_dead (n : SensorNode) (h : n.alive = false) (op : NodeOp) :
    applyOp n op = (n, false) := by
  cases op <;> simp [applyOp, transmit, receive, sense, aggregate_data, h]

theorem runOps_dead (n : SensorNode) (h : n.alive = false) (ops : List NodeOp) :
    runOps n ops = n := by
  induction ops with
  | nil => rfl
  | cons op ops ih =>
      simp only [runOps, List.foldl_cons, applyOp_dead n h op]
      exact ih

theorem applyOp_alive_false (n : SensorNode) (h : n.alive = false) (op : NodeOp) :
    ((applyOp n op).1).alive = false := by
  rw [applyOp_dead n h op]
  exact h

theorem runOps_alive_false (n : SensorNode) (h : n.alive = false) (ops : List NodeOp) :
    (runOps n ops).alive = false := by
  rw [runOps_dead n h ops]
  exact h

theorem cost_nonneg (op : NodeOp) (h : 0 ≤ op.dataSize) : 0 ≤ op.cost := by
  cases op with
  | tx ds d =>
      simp only [NodeOp.dataSize] at h
      have h1 : (0 : ℚ) ≤ e_elec * ds := by
        apply mul_nonneg _ h; norm_num [e_elec]
      have h2 : (0 : ℚ) ≤ e_amp * ds * d ^ 2 := by
        apply mul_nonneg (mul_nonneg _ h) (sq_nonneg d); norm_num [e_amp]
      simpa [NodeOp.cost, calculate_tx_energy] using add_nonneg h1 h2
  | rx ds =>
      simp only [NodeOp.dataSize] at h
      have : (0 : ℚ) ≤ e_elec * ds := by
        apply mul_nonneg _ h; norm_num [e_elec]
      simpa [NodeOp.cost, calculate_rx_energy] using this
  | sn ds =>
      simp only [NodeOp.dataSize] at h
      have : (0 : ℚ) ≤ e_sense * ds := by
        apply mul_nonneg _ h; norm_num [e_sense]
      simpa [NodeOp.cost, calculate_sensing_energy] using this
  | ag ds =>
      simp only [NodeOp.dataSize] at h
      have : (0 : ℚ) ≤ e_da * ds := by
        apply mul_nonneg _ h; norm_num [e_da]
      simpa [NodeOp.cost, calculate_aggregation_energy] using this

/-- The case analysis common to all four operations, phrased through
`NodeOp.cost`. -/
theorem applyOp_eq (n : SensorNode) (op : NodeOp) :
    applyOp n op =
      if n.alive = false then (n, false)
      else if op.cost ≤ n.energy then
        (if n.energy - op.cost ≤ 0 then ({ n with energy := 0, alive := false }, true)
         else ({ n with energy := n.energy - op.cost }, true))
      else ({ n with energy := 0, alive := false }, false) := by
  cases op <;>
    simp only [applyOp, transmit, receive, sense, aggregate_data, NodeOp.cost]

theorem applyOp_energy_le (n : SensorNode) (op : NodeOp)
    (hn : 0 ≤ n.energy) (hds : 0 ≤ op.dataSize) :
    ((applyOp n op).1).energy ≤ n.energy := by
  have hc := cost_nonneg op hds
  rw [applyOp_eq]
  by_cases ha : n.alive = false
  · simp [ha]
  · simp only [ha, if_false]
    by_cases h1 : op.cost ≤ n.energy
    · simp only [h1, if_true]
      by_cases h2 : n.energy - op.cost ≤ 0
      · simp [h2, hn]
      · simp only [h2, if_false]
        show n.energy - op.cost ≤ n.energy
        linarith
    · simp only [h1, if_false]
      exact hn

theorem applyOp_energy_nonneg (n : SensorNode) (op : NodeOp)
    (hn : 0 ≤ n.energy) :
    0 ≤ ((applyOp n op).1).energy := by
  rw [applyOp_eq]
  by_cases ha : n.alive = false
  · simpa [ha] using hn
  · simp only [ha, if_false]
    by_cases h1 : op.cost ≤ n.energy
    · simp only [h1, if_true]
      by_cases h2 : n.energy - op.cost ≤ 0
      · simp [h2]
      · simp only [h2, if_false]
        push_neg at h2
        exact le_of_lt h2
    · simp [h1]

theorem applyOp_alive_mono (n : SensorNode) (op : NodeOp)
    (h : n.alive = false) :
    ((applyOp n op).1).alive = false := applyOp_alive_false n h op

theorem runOps_energy_le (n : SensorNode) (ops : List NodeOp)
    (hn : 0 ≤ n.energy) (hds : ∀ op ∈ ops, 0 ≤ op.dataSize) :
    (runOps n ops).energy ≤ n.energy := by
  induction ops generalizing n with
  | nil => simp [runOps]
  | cons op ops ih =>
      simp only [runOps, List.foldl_cons]
      have h1 : ((applyOp n op).1).energy ≤ n.energy :=
        applyOp_energy_le n op hn (hds op (List.mem_cons_self op ops))
      have h2 : 0 ≤ ((applyOp n op).1).energy := applyOp_energy_nonneg n op hn
      have h3 := ih ((applyOp n op).1) h2
        (fun o ho => hds o (List.mem_cons_of_mem op ho))
      calc (runOps ((applyOp n op).1) ops).energy
          ≤ ((applyOp n op).1).energy := h3
        _ ≤ n.energy := h1

/-! ## C1–C3 -/

/-- C1.  For a live node, each of the four operations computes its cost from
the `EnergyModel` formulas (`e_elec = 50e-9`, `e_amp = 100e-12`,
`e_sense = 5e-9`, `e_da = 5e-9`; transmission uses the single-regime
quadratic model `ds·e_elec + ds·e_amp·d²`); if the energy covers the cost it
debits the cost, clamps the energy to 0 and kills the node when the result
is ≤ 0, and returns success; otherwise it zeroes the energy, kills the node
and returns failure. -/
theorem C1_node_operations (n : SensorNode) (ds d : ℚ) (ha : n.alive = true) :
    (calculate_tx_energy ds d = ds * e_elec + ds * e_amp * d ^ 2 ∧
       calculate_rx_energy ds = ds * e_elec ∧
       calculate_sensing_energy ds = ds * e_sense ∧
       calculate_aggregation_energy ds = ds * e_da ∧
       e_elec = 50 / 10 ^ 9 ∧ e_amp = 100 / 10 ^ 12 ∧
       e_sense = 5 / 10 ^ 9 ∧ e_da = 5 / 10 ^ 9) ∧
    (∀ op : NodeOp,
      (op.cost ≤ n.energy →
        applyOp n op =
          (if n.energy - op.cost ≤ 0 then { n with energy := 0, alive := false }
           else { n with energy := n.energy - op.cost }, true)) ∧
      (n.energy < op.cost →
        applyOp n op = ({ n with energy := 0, alive := false }, false))) := by
  constructor
  · refine ⟨?_, ?_, ?_, ?_, ?_, ?_, ?_, ?_⟩ <;>
      simp [calculate_tx_energy, calculate_rx_energy, calculate_sensing_energy,
        calculate_aggregation_energy, e_elec, e_amp, e_sense, e_da] <;> ring
  · intro op
    constructor
    · intro hc
      rw [applyOp_eq]
      simp only [ha, Bool.true_eq_false, if_false, hc, if_true]
      by_cases h2 : n.energy - op.cost ≤ 0 <;> simp [h2]
    · intro hc
      rw [applyOp_eq]
      simp only [ha, Bool.true_eq_false, if_false, not_le.mpr hc, if_false]

/-- Witness for C1 at a concrete live node. -/
theorem C1_node_operations_witness :
    ({ px := 0, py := 0, energy := 1, alive := true } : SensorNode).alive = true ∧
      (calculate_rx_energy 2 = 2 * e_elec ∧ True) := by
  have h := C1_node_operations { px := 0, py := 0, energy := 1, alive := true } 2 3 rfl
  exact ⟨rfl, h.1.2.1, trivial⟩

/-- C2.  On a dead node every operation returns failure and leaves the whole
node state unchanged, for any arguments and any number of repeated calls. -/
theorem C2_dead_node_noop (n : SensorNode) (h : n.alive = false) :
    (∀ op : NodeOp, applyOp n op = (n, false)) ∧
      (∀ ops : List NodeOp, runOps n ops = n) :=
  ⟨applyOp_dead n h, runOps_dead n h⟩

/-- Witness for C2 at a concrete dead node. -/
theorem C2_dead_node_noop_witness :
    applyOp { px := 0, py := 0, energy := 1, alive := false } (NodeOp.rx 5) =
      ({ px := 0, py := 0, energy := 1, alive := false }, false) :=
  (C2_dead_node_noop { px := 0, py := 0, energy := 1, alive := false } rfl).1
    (NodeOp.rx 5)

/-- C3 counterexample.  The claim quantifies over *any* argument values; a
negative `data_size` makes the computed cost negative, so the debit
increases the node's energy: `receive(-1)` on a live node with energy 1/2
strictly increases its energy. -/
theorem C3_counterexample :
    (applyOp { px := 0, py := 0, energy := 1/2, alive := true } (NodeOp.rx (-1))).1.energy >
      ({ px := 0, py := 0, energy := 1/2, alive := true } : SensorNode).energy := by
  norm_num [applyOp, receive, calculate_rx_energy, e_elec]

/-- C3 (amended): for a node with nonnegative energy and calls whose
`data_size` arguments are nonnegative, energy never increases across any
call sequence; and irreversibility of death holds for *all* argument
values: once `alive = false`, no sequence of calls ever resurrects it. -/
theorem C3_energy_monotone_death_irreversible (n : SensorNode) (ops : List NodeOp)
    (hn : 0 ≤ n.energy) (hds : ∀ op ∈ ops, 0 ≤ op.dataSize) :
    (runOps n ops).energy ≤ n.energy ∧
      (∀ m : SensorNode, ∀ ops' : List NodeOp, m.alive = false →
        (runOps m ops').alive = false) :=
  ⟨runOps_energy_le n ops hn hds, fun m ops' hm => runOps_alive_false m hm ops'⟩

/-- Witness for C3 (amended) at a concrete node and operation list. -/
theorem C3_energy_monotone_death_irreversible_witness :
    (0 : ℚ) ≤ 1 ∧
      (runOps { px := 0, py := 0, energy := 1, alive := true }
        [NodeOp.rx 4000, NodeOp.sn 4000]).energy ≤ 1 := by
  have h := C3_energy_monotone_death_irreversible
    { px := 0, py := 0, energy := 1, alive := true }
    [NodeOp.rx 4000, NodeOp.sn 4000] (by norm_num)
    (by intro op hop
        simp only [List.mem_cons, List.not_mem_nil, or_false] at hop
        rcases hop with h | h <;> subst h <;> norm_num [NodeOp.dataSize])
  exact ⟨by norm_num, h.1⟩

/-! ## LEACH: election lemmas -/

theorem getN_setN (ns : List SensorNode) (i j : ℕ) (n : SensorNode) :
    getN (setN ns i n) j = if i = j ∧ i < ns.length then n else getN ns j := by
  by_cases h1 : i = j
  · subst h1
    by_cases h2 : i < ns.length
    · simp [h2, getN_set_self _ _ _ h2]
    · have he : ns.set i n = ns := List.set_eq_of_length_le (le_of_not_lt h2)
      simp [setN, getN, he, h2]
  · simp [h1, getN_set_ne _ _ _ _ h1]

theorem default_alive : (default : SensorNode).alive = false := rfl

theorem alive_lt_length (ns : List SensorNode) (i : ℕ)
    (h : (getN ns i).alive = true) : i < ns.length := by
  by_contra hlt
  have he : ns[i]? = none := List.getElem?_eq_none (le_of_not_lt hlt)
  have : getN ns i = default := by simp [getN, List.getD, he]
  rw [this, default_alive] at h
  exact absurd h (by decide)

theorem alive_setN_flag (ns : List SensorNode) (i j : ℕ) (b : Bool) :
    (getN (setN ns i { getN ns i with is_cluster_head := b }) j).alive =
      (getN ns j).alive := by
  rw [getN_setN]
  by_cases h : i = j ∧ i < ns.length
  · rcases h with ⟨h1, h2⟩
    subst h1
    simp [h2]
  · simp [h]

theorem liveRankIn_congr (ns ns' : List SensorNode) (i : ℕ) (l : List ℕ)
    (h : ∀ j, (getN ns' j).alive = (getN ns j).alive) :
    liveRankIn ns' i l = liveRankIn ns i l := by
  induction l with
  | nil => rfl
  | cons j t ih => simp [liveRankIn, h, ih]

theorem leachElectGo_alive (p : ℚ) (round : ℕ) (draws : ℕ → ℚ) :
    ∀ (rest : List ℕ) (ns : List SensorNode) (k : ℕ) (chs : List ℕ) (j : ℕ),
      (getN (leachElectGo p round draws rest ns k chs).1 j).alive =
        (getN ns j).alive := by
  intro rest
  induction rest with
  | nil => intro ns k chs j; rfl
  | cons i rest ih =>
      intro ns k chs j
      simp only [leachElectGo]
      by_cases h1 : (getN ns i).alive = false
      · rw [if_pos h1]
        exact ih ns k chs j
      · rw [if_neg h1]
        by_cases h2 : draws k < leachThreshold p round
        · rw [if_pos h2]
          rw [ih]
          exact alive_setN_flag ns i j true
        · rw [if_neg h2]
          exact ih ns (k + 1) chs j

theorem leachElectGo_length (p : ℚ) (round : ℕ) (draws : ℕ → ℚ) :
    ∀ (rest : List ℕ) (ns : List SensorNode) (k : ℕ) (chs : List ℕ),
      (leachElectGo p round draws rest ns k chs).1.length = ns.length := by
  intro rest
  induction rest with
  | nil => intro ns k chs; rfl
  | cons i rest ih =>
      intro ns k chs
      simp only [leachElectGo]
      by_cases h1 : (getN ns i).alive = false
      · rw [if_pos h1]; exact ih ns k chs
      · rw [if_neg h1]
        by_cases h2 : draws k < leachThreshold p round
        · rw [if_pos h2, ih, length_setN]
        · rw [if_neg h2]; exact ih ns (k + 1) chs

theorem leachElectGo_unchanged (p : ℚ) (round : ℕ) (draws : ℕ → ℚ) :
    ∀ (rest : List ℕ) (ns : List SensorNode) (k : ℕ) (chs : List ℕ) (j : ℕ),
      j ∉ rest →
      getN (leachElectGo p round draws rest ns k chs).1 j = getN ns j := by
  intro rest
  induction rest with
  | nil => intro ns k chs j _; rfl
  | cons i rest ih =>
      intro ns k chs j hj
      have hji : j ≠ i := fun h => hj (h ▸ List.mem_cons_self i rest)
      have hjr : j ∉ rest := fun h => hj (List.mem_cons_of_mem i h)
      simp only [leachElectGo]
      by_cases h1 : (getN ns i).alive = false
      · rw [if_pos h1]; exact ih ns k chs j hjr
      · rw [if_neg h1]
        by_cases h2 : draws k < leachThreshold p round
        · rw [if_pos h2, ih _ _ _ _ hjr, getN_setN,
            if_neg (fun h => hji (And.left h).symm)]
        · rw [if_neg h2]; exact ih ns (k + 1) chs j hjr

theorem leachElectGo_flag (p : ℚ) (round : ℕ) (draws : ℕ → ℚ) :
    ∀ (rest : List ℕ) (ns : List SensorNode) (k : ℕ) (chs : List ℕ) (i : ℕ),
      rest.Nodup → i ∈ rest →
      (getN (leachElectGo p round draws rest ns k chs).1 i).is_cluster_head =
        ((getN ns i).is_cluster_head ||
          ((getN ns i).alive &&
            decide (draws (k + liveRankIn ns i rest) < leachThreshold p round))) := by
  intro rest
  induction rest with
  | nil => intro ns k chs i _ hi; exact absurd hi (List.not_mem_nil i)
  | cons j rest ih =>
      intro ns k chs i hnd hi
      have hndr : rest.Nodup := (List.nodup_cons.mp hnd).2
      have hjr : j ∉ rest := (List.nodup_cons.mp hnd).1
      simp only [leachElectGo]
      by_cases hji : j = i
      · subst hji
        by_cases h1 : (getN ns j).alive = false
        · rw [if_pos h1]
          rw [leachElectGo_unchanged p round draws rest ns k chs j hjr]
          simp [h1, liveRankIn]
        · rw [if_neg h1]
          have h1' : (getN ns j).alive = true := by
            cases hb : (getN ns j).alive
            · exact absurd hb h1
            · rfl
          by_cases h2 : draws k < leachThreshold p round
          · rw [if_pos h2]
            rw [leachElectGo_unchanged p round draws rest _ _ _ j hjr, getN_setN]
            have hlen : j < ns.length := alive_lt_length ns j h1'
            simp [hlen, liveRankIn, h1', h2]
          · rw [if_neg h2]
            rw [leachElectGo_unchanged p round draws rest ns _ _ j hjr]
            simp [liveRankIn, h1', h2]
      · have hir : i ∈ rest := by
          rcases List.mem_cons.mp hi with h | h
          · exact absurd h.symm hji
          · exact h
        by_cases h1 : (getN ns j).alive = false
        · rw [if_pos h1]
          rw [ih ns k chs i hndr hir]
          simp [liveRankIn, hji, h1]
        · rw [if_neg h1]
          have h1' : (getN ns j).alive = true := by
            cases hb : (getN ns j).alive
            · exact absurd hb h1
            · rfl
          by_cases h2 : draws k < leachThreshold p round
          · rw [if_pos h2]
            rw [ih _ _ _ i hndr hir]
            have hne : ¬(j = i ∧ j < ns.length) := fun h => hji h.1
            rw [getN_setN, if_neg hne]
            rw [liveRankIn_congr ns
              (setN ns j { getN ns j with is_cluster_head := true }) i rest
              (fun m => alive_setN_flag ns j m true)]
            simp only [liveRankIn]
            have harg : k + (if j = i then 0
                else (if (getN ns j).alive = true then 1 else 0) +
                  liveRankIn ns i rest) = k + 1 + liveRankIn ns i rest := by
              rw [if_neg hji, if_pos h1']
              omega
            simp only [harg]
          · rw [if_neg h2]
            rw [ih ns (k + 1) chs i hndr hir]
            simp only [liveRankIn]
            have harg : k + (if j = i then 0
                else (if (getN ns j).alive = true then 1 else 0) +
                  liveRankIn ns i rest) = k + 1 + liveRankIn ns i rest := by
              rw [if_neg hji, if_pos h1']
              omega
            simp only [harg]

theorem leachReset_getN (ns : List SensorNode) (i : ℕ) :
    getN (leachReset ns) i =
      { getN ns i with is_cluster_head := false, cluster_head := none } := by
  by_cases h : i < ns.length
  · have h' : i < (leachReset ns).length := by simpa [leachReset] using h
    simp [getN, leachReset, List.getD, List.getElem?_map,
      List.getElem?_eq_getElem h]
  · have h1 : ns[i]? = none := List.getElem?_eq_none (le_of_not_lt h)
    have h2 : (leachReset ns)[i]? = none := by
      apply List.getElem?_eq_none
      simpa [leachReset] using le_of_not_lt h
    simp [getN, List.getD, h1, h2]
    rfl

/-! ## C4 -/

/-- C4 counterexample.  At `p = 2/5` the code's modulus `int(1/p)` is 2
while the spec's `⌈1/p⌉` is 3; at round 2 the code's threshold is `2/5`
but the claimed formula gives `2`, and a live node whose draw is `1/2` is
*not* elected although `1/2 < 2`. -/
theorem C4_counterexample :
    leachThreshold (2/5) 2 ≠ leachThresholdSpecC4 (2/5) 2 ∧
      (leachElect (2/5) 2 (fun _ => 1/2)
        [{ px := 0, py := 0, energy := 1, alive := true }]).2 = [] ∧
      (1/2 : ℚ) < leachThresholdSpecC4 (2/5) 2 := by
  have hf : (⌊(1 : ℚ)/(2/5)⌋ : ℤ) = 2 := by
    rw [Int.floor_eq_iff]
    norm_num
  have hc : (⌈(1 : ℚ)/(2/5)⌉ : ℤ) = 3 := by
    rw [Int.ceil_eq_iff]
    norm_num
  have ht : leachThreshold (2/5) 2 = 2/5 := by
    have h0 : (2 % Int.toNat (2 : ℤ) : ℕ) = 0 := rfl
    simp only [leachThreshold, hf, h0]
    norm_num
  have hts : leachThresholdSpecC4 (2/5) 2 = 2 := by
    have h2 : (2 % Int.toNat (3 : ℤ) : ℕ) = 2 := rfl
    simp only [leachThresholdSpecC4, hc, h2]
    norm_num
  refine ⟨?_, ?_, ?_⟩
  · rw [ht, hts]; norm_num
  · have hr : List.range 1 = [0] := rfl
    simp only [leachElect, List.length_singleton, hr, leachElectGo, getN,
      List.getD, ht]
    norm_num
  · rw [hts]; norm_num

/-- C4 (amended).  In `setup_phase`, with the threshold
`T = p / (1 − p·(round mod int(1/p)))` — Python `int`, i.e. the *floor* of
`1/p`, not the ceiling the spec states — a node is elected a cluster head
exactly when it is live and its fresh uniform draw (the `liveRankIn`-th
draw of the stream, one draw per live node in iteration order) is `< T`. -/
theorem C4_leach_election (p : ℚ) (round : ℕ) (draws : ℕ → ℚ)
    (ns0 : List SensorNode) (i : ℕ) (hi : i < ns0.length) :
    ((getN (leachElect p round draws (leachReset ns0)).1 i).is_cluster_head = true ↔
      ((getN ns0 i).alive = true ∧
        draws (liveRankIn (leachReset ns0) i (List.range ns0.length)) <
          leachThreshold p round)) ∧
      leachThreshold p round =
        p / (1 - p * ((round % (Int.toNat ⌊1/p⌋) : ℕ) : ℚ)) := by
  constructor
  · have hlen : (leachReset ns0).length = ns0.length := by simp [leachReset]
    have hmem : i ∈ List.range ns0.length := List.mem_range.mpr hi
    have h := leachElectGo_flag p round draws (List.range ns0.length)
      (leachReset ns0) 0 [] i (List.nodup_range ns0.length) hmem
    simp only [leachElect, hlen] at h ⊢
    rw [h, leachReset_getN]
    simp only [Nat.zero_add]
    cases ha : (getN ns0 i).alive
    · simp [ha]
    · simp [ha, decide_eq_true_eq]
  · rfl

/-! ## LEACH: join-phase lemmas (C5) -/

theorem transmit_sq_pres (n : SensorNode) (ds d2 : ℚ) :
    (transmit_sq n ds d2).1.px = n.px ∧ (transmit_sq n ds d2).1.py = n.py ∧
      (transmit_sq n ds d2).1.is_cluster_head = n.is_cluster_head ∧
      (transmit_sq n ds d2).1.cluster_head = n.cluster_head ∧
      (transmit_sq n ds d2).1.neighbors = n.neighbors := by
  simp only [transmit_sq]
  repeat' split
  all_goals simp

theorem receive_pres (n : SensorNode) (ds : ℚ) :
    (receive n ds).1.px = n.px ∧ (receive n ds).1.py = n.py ∧
      (receive n ds).1.is_cluster_head = n.is_cluster_head ∧
      (receive n ds).1.cluster_head = n.cluster_head ∧
      (receive n ds).1.neighbors = n.neighbors := by
  simp only [receive]
  repeat' split
  all_goals simp

theorem transmit_sq_pos_eq (n : SensorNode) (ds d2 : ℚ) :
    (transmit_sq n ds d2).1.pos = n.pos := by
  have h := transmit_sq_pres n ds d2
  simp [SensorNode.pos, h.1, h.2.1]

theorem receive_pos_eq (n : SensorNode) (ds : ℚ) :
    (receive n ds).1.pos = n.pos := by
  have h := receive_pres n ds
  simp [SensorNode.pos, h.1, h.2.1]

theorem firstMinAux_spec (f : ℕ → ℚ) :
    ∀ (l : List ℕ) (b : ℕ × ℚ),
      (firstMinAux f b l = b ∨
        ((firstMinAux f b l).1 ∈ l ∧ (firstMinAux f b l).2 = f (firstMinAux f b l).1)) ∧
      (firstMinAux f b l).2 ≤ b.2 ∧
      (∀ x ∈ l, (firstMinAux f b l).2 ≤ f x) := by
  intro l
  induction l with
  | nil =>
      intro b
      exact ⟨Or.inl rfl, le_refl _, fun x hx => absurd hx (List.not_mem_nil x)⟩
  | cons i t ih =>
      intro b
      simp only [firstMinAux]
      by_cases h : f i < b.2
      · rw [if_pos h]
        rcases ih (i, f i) with ⟨ha, hb, hc⟩
        refine ⟨?_, ?_, ?_⟩
        · rcases ha with ha | ha
          · right
            rw [ha]
            exact ⟨List.mem_cons_self i t, rfl⟩
          · right
            exact ⟨List.mem_cons_of_mem i ha.1, ha.2⟩
        · exact le_of_lt (lt_of_le_of_lt hb h)
        · intro x hx
          rcases List.mem_cons.mp hx with hx | hx
          · rw [hx]; exact hb
          · exact hc x hx
      · rw [if_neg h]
        rcases ih b with ⟨ha, hb, hc⟩
        refine ⟨?_, ?_, ?_⟩
        · rcases ha with ha | ha
          · exact Or.inl ha
          · exact Or.inr ⟨List.mem_cons_of_mem i ha.1, ha.2⟩
        · exact hb
        · intro x hx
          rcases List.mem_cons.mp hx with hx | hx
          · rw [hx]
            exact le_trans hb (le_of_not_lt h)
          · exact hc x hx

theorem firstMinBy_cons_spec (f : ℕ → ℚ) (i : ℕ) (t : List ℕ) :
    ∃ ch m, firstMinBy f (i :: t) = some (ch, m) ∧ ch ∈ i :: t ∧ m = f ch ∧
      ∀ x ∈ i :: t, m ≤ f x := by
  rcases firstMinAux_spec f t (i, f i) with ⟨ha, hb, hc⟩
  refine ⟨(firstMinAux f (i, f i) t).1, (firstMinAux f (i, f i) t).2, rfl, ?_, ?_, ?_⟩
  · rcases ha with ha | ha
    · rw [ha]; exact List.mem_cons_self i t
    · exact List.mem_cons_of_mem i ha.1
  · rcases ha with ha | ha
    · rw [ha]
    · exact ha.2
  · intro x hx
    rcases List.mem_cons.mp hx with hx | hx
    · rw [hx]; exact hb
    · exact hc x hx

theorem leachElectGo_flag_mono (p : ℚ) (round : ℕ) (draws : ℕ → ℚ) :
    ∀ (rest : List ℕ) (ns : List SensorNode) (k : ℕ) (chs : List ℕ) (j : ℕ),
      (getN ns j).is_cluster_head = true →
      (getN (leachElectGo p round draws rest ns k chs).1 j).is_cluster_head = true := by
  intro rest
  induction rest with
  | nil => intro ns k chs j h; exact h
  | cons i rest ih =>
      intro ns k chs j h
      simp only [leachElectGo]
      by_cases h1 : (getN ns i).alive = false
      · rw [if_pos h1]; exact ih ns k chs j h
      · rw [if_neg h1]
        by_cases h2 : draws k < leachThreshold p round
        · rw [if_pos h2]
          apply ih
          rw [getN_setN]
          by_cases hc : i = j ∧ i < ns.length
          · rw [if_pos hc]
          · rw [if_neg hc]; exact h
        · rw [if_neg h2]; exact ih ns (k + 1) chs j h

theorem leachElectGo_chs_flag (p : ℚ) (round : ℕ) (draws : ℕ → ℚ) :
    ∀ (rest : List ℕ) (ns : List SensorNode) (k : ℕ) (chs : List ℕ),
      (∀ ch ∈ chs, (getN ns ch).is_cluster_head = true) →
      ∀ ch ∈ (leachElectGo p round draws rest ns k chs).2.1,
        (getN (leachElectGo p round draws rest ns k chs).1 ch).is_cluster_head = true := by
  intro rest
  induction rest with
  | nil => intro ns k chs h ch hch; exact h ch hch
  | cons i rest ih =>
      intro ns k chs h ch hch
      rw [leachElectGo] at hch ⊢
      by_cases h1 : (getN ns i).alive = false
      · rw [if_pos h1] at hch ⊢
        exact ih ns k chs h ch hch
      · rw [if_neg h1] at hch ⊢
        by_cases h2 : draws k < leachThreshold p round
        · rw [if_pos h2] at hch ⊢
          have hlen : i < ns.length := by
            apply alive_lt_length
            cases hb : (getN ns i).alive
            · exact absurd hb h1
            · rfl
          have hH : ∀ c ∈ chs ++ [i],
              (getN (setN ns i { getN ns i with is_cluster_head := true })
                c).is_cluster_head = true := by
            intro c hc
            rcases List.mem_append.mp hc with hc | hc
            · have := h c hc
              rw [getN_setN]
              by_cases hci : i = c ∧ i < ns.length
              · rw [if_pos hci]
              · rw [if_neg hci]; exact this
            · have hci : c = i := List.mem_singleton.mp hc
              subst hci
              rw [getN_setN, if_pos ⟨rfl, hlen⟩]
          exact ih _ _ _ hH ch hch
        · rw [if_neg h2] at hch ⊢
          exact ih ns (k + 1) chs h ch hch

theorem leachBroadcastOne_pres (ns : List SensorNode) (ch : ℕ) :
    (∀ j, (getN (leachBroadcastOne ns ch) j).is_cluster_head =
        (getN ns j).is_cluster_head ∧
      (getN (leachBroadcastOne ns ch) j).cluster_head = (getN ns j).cluster_head ∧
      (getN (leachBroadcastOne ns ch) j).pos = (getN ns j).pos) ∧
    (∀ j, j ≠ ch → getN (leachBroadcastOne ns ch) j = getN ns j) ∧
    (leachBroadcastOne ns ch).length = ns.length := by
  unfold leachBroadcastOne
  generalize List.range ns.length = l
  induction l generalizing ns with
  | nil => exact ⟨fun j => ⟨rfl, rfl, rfl⟩, fun j _ => rfl, rfl⟩
  | cons a t ih =>
      simp only [List.foldl_cons]
      by_cases hc : a ≠ ch ∧ (getN ns a).alive = true
      · rw [if_pos hc]
        set ns1 := setN ns ch
          (transmit_sq (getN ns ch) 50 (dist2 (getN ns ch).pos (getN ns a).pos)).1 with hns1
        rcases ih ns1 with ⟨ih1, ih2, ih3⟩
        refine ⟨?_, ?_, ?_⟩
        · intro j
          rcases ih1 j with ⟨f1, f2, f3⟩
          have hg : (getN ns1 j).is_cluster_head = (getN ns j).is_cluster_head ∧
              (getN ns1 j).cluster_head = (getN ns j).cluster_head ∧
              (getN ns1 j).pos = (getN ns j).pos := by
            rw [hns1, getN_setN]
            by_cases hj : ch = j ∧ ch < ns.length
            · rcases hj with ⟨hj1, hj2⟩
              subst hj1
              rw [if_pos ⟨rfl, hj2⟩]
              have hp := transmit_sq_pres (getN ns ch) 50
                (dist2 (getN ns ch).pos (getN ns a).pos)
              exact ⟨hp.2.2.1, hp.2.2.2.1,
                transmit_sq_pos_eq (getN ns ch) 50 _⟩
            · rw [if_neg hj]
              exact ⟨rfl, rfl, rfl⟩
          exact ⟨f1.trans hg.1, f2.trans hg.2.1, f3.trans hg.2.2⟩
        · intro j hj
          rw [ih2 j hj, hns1, getN_setN, if_neg (fun hx => hj hx.1.symm)]
        · rw [ih3, hns1, length_setN]
      · rw [if_neg hc]
        exact ih ns

theorem leachBroadcast_pres (ns : List SensorNode) (chs : List ℕ) :
    (∀ j, (getN (leachBroadcast ns chs) j).is_cluster_head =
        (getN ns j).is_cluster_head ∧
      (getN (leachBroadcast ns chs) j).cluster_head = (getN ns j).cluster_head ∧
      (getN (leachBroadcast ns chs) j).pos = (getN ns j).pos) ∧
    (leachBroadcast ns chs).length = ns.length := by
  unfold leachBroadcast
  induction chs generalizing ns with
  | nil => exact ⟨fun j => ⟨rfl, rfl, rfl⟩, rfl⟩
  | cons c t ih =>
      simp only [List.foldl_cons]
      rcases ih (leachBroadcastOne ns c) with ⟨ih1, ih2⟩
      rcases leachBroadcastOne_pres ns c with ⟨b1, _, b3⟩
      refine ⟨?_, ?_⟩
      · intro j
        rcases ih1 j with ⟨f1, f2, f3⟩
        rcases b1 j with ⟨g1, g2, g3⟩
        exact ⟨f1.trans g1, f2.trans g2, f3.trans g3⟩
      · rw [ih2, b3]

theorem firstMinBy_none_iff (f : ℕ → ℚ) (l : List ℕ) :
    firstMinBy f l = none ↔ l = [] := by
  cases l <;> simp [firstMinBy]

theorem firstMinBy_eq_some_spec (f : ℕ → ℚ) (l : List ℕ) (ch : ℕ) (m : ℚ)
    (h : firstMinBy f l = some (ch, m)) :
    ch ∈ l ∧ m = f ch ∧ ∀ x ∈ l, m ≤ f x := by
  cases l with
  | nil => cases h
  | cons a t =>
      obtain ⟨ch', m', heq, hmem, hval, hmin⟩ := firstMinBy_cons_spec f a t
      rw [heq] at h
      have h2 : ch' = ch ∧ m' = m := by
        have := Option.some.inj h
        exact ⟨congrArg Prod.fst this, congrArg Prod.snd this⟩
      rcases h2 with ⟨h2a, h2b⟩
      subst h2a
      subst h2b
      exact ⟨hmem, hval, hmin⟩

theorem default_flag : (default : SensorNode).is_cluster_head = false := rfl

theorem flag_lt_length (ns : List SensorNode) (i : ℕ)
    (h : (getN ns i).is_cluster_head = true) : i < ns.length := by
  by_contra hlt
  have he : ns[i]? = none := List.getElem?_eq_none (le_of_not_lt hlt)
  have hd : getN ns i = default := by simp [getN, List.getD, he]
  rw [hd, default_flag] at h
  exact absurd h (by decide)

theorem setN_setN (ns : List SensorNode) (i : ℕ) (a b : SensorNode) :
    setN (setN ns i a) i b = setN ns i b := by
  simp [setN, List.set_set]

theorem leachJoinStep_nonjoiner (chs : List ℕ) (ns : List SensorNode)
    (cs : List (ℕ × List ℕ)) (i : ℕ)
    (h : (getN ns i).alive = false ∨ (getN ns i).is_cluster_head = true) :
    leachJoinStep chs ns cs i = (ns, cs) := by
  simp only [leachJoinStep]
  rw [if_pos h]

theorem leachJoinStep_none (chs : List ℕ) (ns : List SensorNode)
    (cs : List (ℕ × List ℕ)) (i : ℕ)
    (h2 : firstMinBy (fun c => dist2 (getN ns i).pos (getN ns c).pos) chs = none) :
    leachJoinStep chs ns cs i = (ns, cs) := by
  simp only [leachJoinStep]
  by_cases h : (getN ns i).alive = false ∨ (getN ns i).is_cluster_head = true
  · rw [if_pos h]
  · rw [if_neg h, h2]

theorem leachJoinStep_joiner (chs : List ℕ) (ns : List SensorNode)
    (cs : List (ℕ × List ℕ)) (i ch : ℕ) (m : ℚ)
    (ha : (getN ns i).alive = true) (hf : (getN ns i).is_cluster_head = false)
    (hci : ch ≠ i)
    (hfm : firstMinBy (fun c => dist2 (getN ns i).pos (getN ns c).pos) chs =
      some (ch, m)) :
    leachJoinStep chs ns cs i =
      (setN (setN ns i
          (transmit_sq { getN ns i with cluster_head := some ch } 50 m).1) ch
        (receive (getN ns ch) 50).1,
       addMember cs ch i) := by
  have hcond : ¬((getN ns i).alive = false ∨ (getN ns i).is_cluster_head = true) := by
    simp [ha, hf]
  simp only [leachJoinStep]
  rw [if_neg hcond, hfm]
  dsimp only
  rw [setN_setN]
  have hg : getN (setN ns i
      (transmit_sq { getN ns i with cluster_head := some ch } 50 m).1) ch =
      getN ns ch := getN_set_ne ns i ch _ (fun h => hci h.symm)
  rw [hg]

theorem joinStepState_fields (ns : List SensorNode) (j ch0 : ℕ) (m0 : ℚ)
    (hj : j < ns.length) (hne : ch0 ≠ j) :
    (∀ x, (getN (setN (setN ns j
          (transmit_sq { getN ns j with cluster_head := some ch0 } 50 m0).1) ch0
          (receive (getN ns ch0) 50).1) x).pos = (getN ns x).pos ∧
        (getN (setN (setN ns j
          (transmit_sq { getN ns j with cluster_head := some ch0 } 50 m0).1) ch0
          (receive (getN ns ch0) 50).1) x).is_cluster_head =
          (getN ns x).is_cluster_head) ∧
    (setN (setN ns j
        (transmit_sq { getN ns j with cluster_head := some ch0 } 50 m0).1) ch0
        (receive (getN ns ch0) 50).1).length = ns.length ∧
    (∀ x, x ≠ j → x ≠ ch0 →
      getN (setN (setN ns j
        (transmit_sq { getN ns j with cluster_head := some ch0 } 50 m0).1) ch0
        (receive (getN ns ch0) 50).1) x = getN ns x) ∧
    getN (setN (setN ns j
        (transmit_sq { getN ns j with cluster_head := some ch0 } 50 m0).1) ch0
        (receive (getN ns ch0) 50).1) j =
      (transmit_sq { getN ns j with cluster_head := some ch0 } 50 m0).1 ∧
    (ch0 < ns.length →
      getN (setN (setN ns j
        (transmit_sq { getN ns j with cluster_head := some ch0 } 50 m0).1) ch0
        (receive (getN ns ch0) 50).1) ch0 = (receive (getN ns ch0) 50).1) := by
  have hlen1 : (setN ns j
      (transmit_sq { getN ns j with cluster_head := some ch0 } 50 m0).1).length =
      ns.length := length_setN ns j _
  have hgj : getN (setN ns j
      (transmit_sq { getN ns j with cluster_head := some ch0 } 50 m0).1) j =
      (transmit_sq { getN ns j with cluster_head := some ch0 } 50 m0).1 :=
    getN_set_self ns j _ hj
  refine ⟨?_, ?_, ?_, ?_, ?_⟩
  · intro x
    rw [getN_setN, getN_setN, hlen1]
    by_cases hx0 : ch0 = x ∧ ch0 < ns.length
    · rw [if_pos hx0]
      rcases hx0 with ⟨hx0, _⟩
      subst hx0
      constructor
      · rw [receive_pos_eq]
      · rw [(receive_pres (getN ns ch0) 50).2.2.1]
    · rw [if_neg hx0]
      by_cases hxj : j = x ∧ j < ns.length
      · rw [if_pos hxj]
        rcases hxj with ⟨hxj, _⟩
        subst hxj
        constructor
        · rw [transmit_sq_pos_eq]
          rfl
        · rw [(transmit_sq_pres _ 50 m0).2.2.1]
      · rw [if_neg hxj]
        exact ⟨rfl, rfl⟩
  · rw [length_setN, hlen1]
  · intro x hxj hx0
    rw [getN_setN, if_neg (fun hx => hx0 hx.1.symm), getN_setN,
      if_neg (fun hx => hxj hx.1.symm)]
  · rw [getN_setN, if_neg (fun hx => hne hx.1), hgj]
  · intro h0
    rw [getN_setN, if_pos ⟨rfl, by rw [hlen1]; exact h0⟩]

theorem leachJoinGo_spec (chs : List ℕ) :
    ∀ (idxs : List ℕ) (ns : List SensorNode) (cs : List (ℕ × List ℕ)),
      idxs.Nodup →
      (∀ c ∈ chs, (getN ns c).is_cluster_head = true) →
      (∀ x, (getN (leachJoinGo chs idxs ns cs).1 x).pos = (getN ns x).pos ∧
        (getN (leachJoinGo chs idxs ns cs).1 x).is_cluster_head =
          (getN ns x).is_cluster_head) ∧
      (leachJoinGo chs idxs ns cs).1.length = ns.length ∧
      (∀ x, x ∉ idxs → x ∉ chs →
        getN (leachJoinGo chs idxs ns cs).1 x = getN ns x) ∧
      (∀ i ∈ idxs, (getN ns i).alive = true →
        (getN ns i).is_cluster_head = false →
        ∀ ch m,
          firstMinBy (fun c => dist2 (getN ns i).pos (getN ns c).pos) chs =
            some (ch, m) →
          getN (leachJoinGo chs idxs ns cs).1 i =
            (transmit_sq { getN ns i with cluster_head := some ch } 50 m).1) ∧
      (∀ c ∈ chs,
        getN (leachJoinGo chs idxs ns cs).1 c =
          List.foldl (fun acc _ => (receive acc 50).1) (getN ns c)
            (joinFilter chs ns idxs c)) := by
  intro idxs
  induction idxs with
  | nil =>
      intro ns cs _ _
      refine ⟨fun x => ⟨rfl, rfl⟩, rfl, fun x _ _ => rfl, ?_, ?_⟩
      · intro i hi
        exact absurd hi (List.not_mem_nil i)
      · intro c _
        rfl
  | cons j rest ih =>
      intro ns cs hnd hH
      have hndr : rest.Nodup := (List.nodup_cons.mp hnd).2
      have hjr : j ∉ rest := (List.nodup_cons.mp hnd).1
      have hgo : leachJoinGo chs (j :: rest) ns cs =
          leachJoinGo chs rest (leachJoinStep chs ns cs j).1
            (leachJoinStep chs ns cs j).2 := rfl
      by_cases hjoin : (getN ns j).alive = false ∨
          (getN ns j).is_cluster_head = true
      · -- non-joiner: the step is a no-op
        rw [hgo, leachJoinStep_nonjoiner chs ns cs j hjoin]
        dsimp only
        obtain ⟨ih1, ih2, ih3, ih4, ih5⟩ := ih ns cs hndr hH
        refine ⟨ih1, ih2, ?_, ?_, ?_⟩
        · intro x hx hxc
          exact ih3 x (fun hm => hx (List.mem_cons_of_mem j hm)) hxc
        · intro i hi ha hf ch m hfm
          rcases List.mem_cons.mp hi with hij | hir
          · subst hij
            rcases hjoin with hd | hfl
            · rw [ha] at hd; cases hd
            · rw [hf] at hfl; cases hfl
          · exact ih4 i hir ha hf ch m hfm
        · intro c hc
          rw [ih5 c hc]
          have hfe : joinFilter chs ns (j :: rest) c = joinFilter chs ns rest c := by
            simp only [joinFilter, List.filter_cons]
            rcases hjoin with hd | hfl
            · simp [hd]
            · simp [hfl]
          rw [hfe]
      · have ha : (getN ns j).alive = true := by
          cases hb : (getN ns j).alive
          · exact absurd (Or.inl hb) hjoin
          · rfl
        have hf : (getN ns j).is_cluster_head = false := by
          cases hb : (getN ns j).is_cluster_head
          · rfl
          · exact absurd (Or.inr hb) hjoin
        cases hchse : firstMinBy
            (fun c => dist2 (getN ns j).pos (getN ns c).pos) chs with
        | none =>
            have hchs : chs = [] := (firstMinBy_none_iff _ chs).mp hchse
            rw [hgo, leachJoinStep_none chs ns cs j hchse]
            dsimp only
            obtain ⟨ih1, ih2, ih3, ih4, ih5⟩ := ih ns cs hndr hH
            refine ⟨ih1, ih2, ?_, ?_, ?_⟩
            · intro x hx hxc
              exact ih3 x (fun hm => hx (List.mem_cons_of_mem j hm)) hxc
            · intro i hi ha' hf' ch m hfm
              rcases List.mem_cons.mp hi with hij | hir
              · subst hij
                rw [hchse] at hfm
                cases hfm
              · exact ih4 i hir ha' hf' ch m hfm
            · intro c hc
              rw [hchs] at hc
              exact absurd hc (List.not_mem_nil c)
        | some pr =>
            obtain ⟨ch0, m0⟩ := pr
            obtain ⟨hch0mem, hch0val, hch0min⟩ :=
              firstMinBy_eq_some_spec _ chs ch0 m0 hchse
            have hch0flag : (getN ns ch0).is_cluster_head = true := hH ch0 hch0mem
            have hne : ch0 ≠ j := by
              intro h
              rw [h, hf] at hch0flag
              cases hch0flag
            have hjlen : j < ns.length := alive_lt_length ns j ha
            have hch0len : ch0 < ns.length := flag_lt_length ns ch0 hch0flag
            have hjchs : j ∉ chs := by
              intro hc
              have := hH j hc
              rw [hf] at this
              cases this
            rw [hgo, leachJoinStep_joiner chs ns cs j ch0 m0 ha hf hne hchse]
            dsimp only
            obtain ⟨F1, F2, F3, F4, F5⟩ :=
              joinStepState_fields ns j ch0 m0 hjlen hne
            have hH' : ∀ c ∈ chs,
                (getN (setN (setN ns j
                  (transmit_sq { getN ns j with cluster_head := some ch0 }
                    50 m0).1) ch0
                  (receive (getN ns ch0) 50).1) c).is_cluster_head = true := by
              intro c hc
              rw [(F1 c).2]
              exact hH c hc
            obtain ⟨ih1, ih2, ih3, ih4, ih5⟩ :=
              ih _ (addMember cs ch0 j) hndr hH'
            have hfun : ∀ i,
                (fun c => dist2
                  (getN (setN (setN ns j
                    (transmit_sq { getN ns j with cluster_head := some ch0 }
                      50 m0).1) ch0 (receive (getN ns ch0) 50).1) i).pos
                  (getN (setN (setN ns j
                    (transmit_sq { getN ns j with cluster_head := some ch0 }
                      50 m0).1) ch0 (receive (getN ns ch0) 50).1) c).pos) =
                (fun c => dist2 (getN ns i).pos (getN ns c).pos) := by
              intro i
              funext c
              rw [(F1 i).1, (F1 c).1]
            have hfiltereq : ∀ c',
                joinFilter chs (setN (setN ns j
                  (transmit_sq { getN ns j with cluster_head := some ch0 }
                    50 m0).1) ch0 (receive (getN ns ch0) 50).1) rest c' =
                joinFilter chs ns rest c' := by
              intro c'
              apply List.filter_congr
              intro i hi
              have hij : i ≠ j := fun h => hjr (h ▸ hi)
              rw [hfun i, (F1 i).2]
              by_cases hic : i = ch0
              · subst hic
                rw [hch0flag]
                simp
              · rw [F3 i hij hic]
            refine ⟨?_, ?_, ?_, ?_, ?_⟩
            · intro x
              exact ⟨(ih1 x).1.trans (F1 x).1, (ih1 x).2.trans (F1 x).2⟩
            · exact ih2.trans F2
            · intro x hx hxc
              have hxj : x ≠ j := fun h => hx (h ▸ List.mem_cons_self j rest)
              have hxch0 : x ≠ ch0 := fun h => hxc (h ▸ hch0mem)
              have hxr : x ∉ rest := fun h => hx (List.mem_cons_of_mem j h)
              exact (ih3 x hxr hxc).trans (F3 x hxj hxch0)
            · intro i hi ha' hf' ch m hfm
              rcases List.mem_cons.mp hi with hij | hir
              · rw [hij] at ha' hf' hfm ⊢
                rw [hchse] at hfm
                have hinj := Option.some.inj hfm
                have hch : ch0 = ch := congrArg Prod.fst hinj
                have hm : m0 = m := congrArg Prod.snd hinj
                subst hch
                subst hm
                rw [ih3 j hjr hjchs, F4]
              · have hij : i ≠ j := fun h => hjr (h ▸ hir)
                have hich0 : i ≠ ch0 := by
                  intro h
                  rw [h, hch0flag] at hf'
                  cases hf'
                have hgi := F3 i hij hich0
                have := ih4 i hir (by rw [hgi]; exact ha')
                  (by rw [hgi]; exact hf') ch m (by rw [hfun i]; exact hfm)
                rw [this, hgi]
            · intro c hc
              rw [ih5 c hc, hfiltereq c]
              by_cases hc0 : c = ch0
              · subst hc0
                rw [F5 hch0len]
                have hfcons : joinFilter chs ns (j :: rest) c =
                    j :: joinFilter chs ns rest c := by
                  simp only [joinFilter, List.filter_cons]
                  rw [hchse]
                  simp [ha, hf]
                rw [hfcons]
                rfl
              · have hcj : c ≠ j := by
                  intro h
                  have hcf := hH c hc
                  rw [h, hf] at hcf
                  cases hcf
                have hgc := F3 c hcj hc0
                have hfcons : joinFilter chs ns (j :: rest) c =
                    joinFilter chs ns rest c := by
                  simp only [joinFilter, List.filter_cons]
                  rw [hchse]
                  simp [Ne.symm hc0]
                rw [hgc, hfcons]

theorem getN_setN_chref (ns : List SensorNode) (k : ℕ) (n' : SensorNode)
    (h : n'.cluster_head = (getN ns k).cluster_head) :
    ∀ x, (getN (setN ns k n') x).cluster_head = (getN ns x).cluster_head := by
  intro x
  rw [getN_setN]
  by_cases hx : k = x ∧ k < ns.length
  · rw [if_pos hx, h, hx.1]
  · rw [if_neg hx]

theorem tdmaFold_chref (ch : ℕ) :
    ∀ (l : List ℕ) (ns : List SensorNode) (x : ℕ),
      (getN (List.foldl (fun ns i =>
        let ns1 := setN ns ch
          (transmit_sq (getN ns ch) 100 (dist2 (getN ns ch).pos (getN ns i).pos)).1
        setN ns1 i (receive (getN ns1 i) 100).1) ns l) x).cluster_head =
      (getN ns x).cluster_head := by
  intro l
  induction l with
  | nil => intro ns x; rfl
  | cons a t ih =>
      intro ns x
      simp only [List.foldl_cons]
      have h1 : ∀ y, (getN (setN ns ch
          (transmit_sq (getN ns ch) 100
            (dist2 (getN ns ch).pos (getN ns a).pos)).1) y).cluster_head =
          (getN ns y).cluster_head :=
        getN_setN_chref ns ch _ (transmit_sq_pres _ 100 _).2.2.2.1
      have h2 : ∀ y, (getN (setN (setN ns ch
          (transmit_sq (getN ns ch) 100
            (dist2 (getN ns ch).pos (getN ns a).pos)).1) a
          (receive (getN (setN ns ch
            (transmit_sq (getN ns ch) 100
              (dist2 (getN ns ch).pos (getN ns a).pos)).1) a) 100).1)
          y).cluster_head = (getN ns y).cluster_head := by
        intro y
        exact (getN_setN_chref _ a _ (receive_pres _ 100).2.2.2.1 y).trans (h1 y)
      exact (ih _ x).trans (h2 x)

theorem leachTDMAOne_chref (cs : List (ℕ × List ℕ)) (ns : List SensorNode)
    (ch : ℕ) :
    ∀ x, (getN (leachTDMAOne cs ns ch) x).cluster_head =
      (getN ns x).cluster_head := by
  intro x
  unfold leachTDMAOne
  by_cases hd : (getN ns ch).alive = false
  · rw [if_pos hd]
  · rw [if_neg hd]
    exact tdmaFold_chref ch (getMembers cs ch) ns x

theorem leachTDMA_chref (cs : List (ℕ × List ℕ)) (ns : List SensorNode)
    (chs : List ℕ) :
    ∀ x, (getN (leachTDMA cs ns chs) x).cluster_head =
      (getN ns x).cluster_head := by
  intro x
  unfold leachTDMA
  induction chs generalizing ns with
  | nil => rfl
  | cons c t ih =>
      simp only [List.foldl_cons]
      exact (ih (leachTDMAOne cs ns c)).trans (leachTDMAOne_chref cs ns c x)

/-- C5 (amended).  In `setup_phase`, every node that is live and not a head
when the join loop reaches it joins the geographically nearest *elected*
cluster head — whether or not that head is still alive — with ties broken by
the first head in `cluster_heads` order; the member pays the 50-bit join
transmit cost over that distance, and each elected head undergoes one
`receive(50)` per member joining it (a refused no-op if the head is dead). -/
theorem C5_leach_join (p : ℚ) (round : ℕ) (draws : ℕ → ℚ)
    (ns0 : List SensorNode) (i ch : ℕ) (m : ℚ)
    (ha : (getN (leachAfterBroadcast p round draws ns0).1 i).alive = true)
    (hf : (getN (leachAfterBroadcast p round draws ns0).1 i).is_cluster_head =
      false)
    (hfm : firstMinBy (fun c =>
        dist2 (getN (leachAfterBroadcast p round draws ns0).1 i).pos
          (getN (leachAfterBroadcast p round draws ns0).1 c).pos)
        (leachAfterBroadcast p round draws ns0).2 = some (ch, m)) :
    (ch ∈ (leachAfterBroadcast p round draws ns0).2 ∧
      m = dist2 (getN (leachAfterBroadcast p round draws ns0).1 i).pos
            (getN (leachAfterBroadcast p round draws ns0).1 ch).pos ∧
      ∀ x ∈ (leachAfterBroadcast p round draws ns0).2,
        m ≤ dist2 (getN (leachAfterBroadcast p round draws ns0).1 i).pos
              (getN (leachAfterBroadcast p round draws ns0).1 x).pos) ∧
    (getN (leachSetupPhase p round draws ns0).nodes i).cluster_head = some ch ∧
    getN (leachJoinGo (leachAfterBroadcast p round draws ns0).2
        (List.range (leachAfterBroadcast p round draws ns0).1.length)
        (leachAfterBroadcast p round draws ns0).1 []).1 i =
      (transmit_sq { getN (leachAfterBroadcast p round draws ns0).1 i with
          cluster_head := some ch } 50 m).1 ∧
    (∀ c ∈ (leachAfterBroadcast p round draws ns0).2,
      getN (leachJoinGo (leachAfterBroadcast p round draws ns0).2
          (List.range (leachAfterBroadcast p round draws ns0).1.length)
          (leachAfterBroadcast p round draws ns0).1 []).1 c =
        List.foldl (fun acc _ => (receive acc 50).1)
          (getN (leachAfterBroadcast p round draws ns0).1 c)
          (joinFilter (leachAfterBroadcast p round draws ns0).2
            (leachAfterBroadcast p round draws ns0).1
            (List.range (leachAfterBroadcast p round draws ns0).1.length) c)) := by
  have hHs1 : ∀ c ∈ (leachAfterBroadcast p round draws ns0).2,
      (getN (leachAfterBroadcast p round draws ns0).1 c).is_cluster_head =
        true := by
    intro c hc
    have hc' : c ∈ (leachElectGo p round draws
        (List.range (leachReset ns0).length) (leachReset ns0) 0 []).2.1 := hc
    have hflag1 := leachElectGo_chs_flag p round draws
      (List.range (leachReset ns0).length) (leachReset ns0) 0 []
      (by intro x hx; cases hx) c hc'
    show (getN (leachBroadcast
        (leachElectGo p round draws (List.range (leachReset ns0).length)
          (leachReset ns0) 0 []).1
        (leachElectGo p round draws (List.range (leachReset ns0).length)
          (leachReset ns0) 0 []).2.1) c).is_cluster_head = true
    exact (((leachBroadcast_pres _ _).1 c).1).trans hflag1
  obtain ⟨J1, J2, J3, J4, J5⟩ := leachJoinGo_spec
    (leachAfterBroadcast p round draws ns0).2
    (List.range (leachAfterBroadcast p round draws ns0).1.length)
    (leachAfterBroadcast p round draws ns0).1 []
    (List.nodup_range _) hHs1
  have hilen : i < (leachAfterBroadcast p round draws ns0).1.length :=
    alive_lt_length _ i ha
  have hJ4 := J4 i (List.mem_range.mpr hilen) ha hf ch m hfm
  refine ⟨firstMinBy_eq_some_spec _ _ ch m hfm, ?_, hJ4, J5⟩
  have hsetup : (leachSetupPhase p round draws ns0).nodes =
      leachTDMA
        (leachJoinGo (leachAfterBroadcast p round draws ns0).2
          (List.range (leachAfterBroadcast p round draws ns0).1.length)
          (leachAfterBroadcast p round draws ns0).1 []).2
        (leachJoinGo (leachAfterBroadcast p round draws ns0).2
          (List.range (leachAfterBroadcast p round draws ns0).1.length)
          (leachAfterBroadcast p round draws ns0).1 []).1
        (leachAfterBroadcast p round draws ns0).2 := rfl
  rw [hsetup, leachTDMA_chref, hJ4,
    (transmit_sq_pres { getN (leachAfterBroadcast p round draws ns0).1 i with
      cluster_head := some ch } 50 m).2.2.2.1]

set_option maxHeartbeats 1600000 in
/-- C5 counterexample.  Three nodes at (0,0), (10,0), (1,0); the first two
are elected heads (draws 0, 0 against threshold 1/19), the third (draw 1/2)
is a member.  Head 0 has energy 1e-9 and dies during its own status
broadcast; the join loop nevertheless assigns node 2 to head 0 (distance²
1), although head 1 (distance² 81) is the nearest *live* head.  The claim
"joins the geographically nearest live cluster head" is false on the code:
the join scan never checks the head's alive flag. -/
theorem C5_counterexample :
    (getN (leachSetupPhase (1/20) 1 (fun k => if k < 2 then 0 else 1/2)
      [{ px := 0, py := 0, energy := 1/1000000000, alive := true },
       { px := 10, py := 0, energy := 1, alive := true },
       { px := 1, py := 0, energy := 1, alive := true }]).nodes 2).cluster_head =
        some 0 ∧
      (getN (leachSetupPhase (1/20) 1 (fun k => if k < 2 then 0 else 1/2)
        [{ px := 0, py := 0, energy := 1/1000000000, alive := true },
         { px := 10, py := 0, energy := 1, alive := true },
         { px := 1, py := 0, energy := 1, alive := true }]).nodes 0).alive =
        false ∧
      (getN (leachSetupPhase (1/20) 1 (fun k => if k < 2 then 0 else 1/2)
        [{ px := 0, py := 0, energy := 1/1000000000, alive := true },
         { px := 10, py := 0, energy := 1, alive := true },
         { px := 1, py := 0, energy := 1, alive := true }]).nodes 1).alive =
        true ∧
      (getN (leachSetupPhase (1/20) 1 (fun k => if k < 2 then 0 else 1/2)
        [{ px := 0, py := 0, energy := 1/1000000000, alive := true },
         { px := 10, py := 0, energy := 1, alive := true },
         { px := 1, py := 0, energy := 1, alive := true }]).nodes
          1).is_cluster_head = true ∧
      (leachSetupPhase (1/20) 1 (fun k => if k < 2 then 0 else 1/2)
        [{ px := 0, py := 0, energy := 1/1000000000, alive := true },
         { px := 10, py := 0, energy := 1, alive := true },
         { px := 1, py := 0, energy := 1, alive := true }]).cluster_heads =
        [0, 1] := by
  have hfl : (⌊(1 : ℚ)/(1/20)⌋ : ℤ) = 20 := by
    rw [Int.floor_eq_iff]
    norm_num
  have ht : leachThreshold (1/20) 1 = 1/19 := by
    have h1 : (1 % Int.toNat (20 : ℤ) : ℕ) = 1 := rfl
    simp only [leachThreshold, hfl, h1]
    norm_num
  have hr : List.range 3 = [0, 1, 2] := rfl
  refine ⟨?_, ?_, ?_, ?_, ?_⟩ <;>
    norm_num [leachSetupPhase, leachAfterBroadcast, leachElect, leachElectGo,
      leachReset, leachBroadcast, leachBroadcastOne, leachJoinGo, leachJoinStep,
      leachTDMA, leachTDMAOne, getMembers, addMember, firstMinBy, firstMinAux,
      joinFilter, getN, setN, List.getD, dist2, SensorNode.pos, transmit_sq,
      receive, tx_cost_sq, calculate_rx_energy, e_elec, e_amp, ht, hr,
      List.set, List.find?]

/-- Witness for C5 (amended): two nodes; node 0 is elected, node 1 is live,
not a head, and its nearest elected head is node 0 at squared distance 9;
after `setup_phase` its `cluster_head` is node 0. -/
theorem C5_leach_join_witness :
    (getN (leachAfterBroadcast (1/20) 1
      (fun k => if k = 0 then (0 : ℚ) else 1/2)
      [{ px := 0, py := 0, energy := 1, alive := true },
       { px := 3, py := 0, energy := 1, alive := true }]).1 1).alive = true ∧
    (getN (leachSetupPhase (1/20) 1
      (fun k => if k = 0 then (0 : ℚ) else 1/2)
      [{ px := 0, py := 0, energy := 1, alive := true },
       { px := 3, py := 0, energy := 1, alive := true }]).nodes 1).cluster_head =
      some 0 := by
  have hfl : (⌊(1 : ℚ)/(1/20)⌋ : ℤ) = 20 := by
    rw [Int.floor_eq_iff]
    norm_num
  have ht : leachThreshold (1/20) 1 = 1/19 := by
    have h1 : (1 % Int.toNat (20 : ℤ) : ℕ) = 1 := rfl
    simp only [leachThreshold, hfl, h1]
    norm_num
  have hr : List.range 2 = [0, 1] := rfl
  have ha : (getN (leachAfterBroadcast (1/20) 1
      (fun k => if k = 0 then (0 : ℚ) else 1/2)
      [{ px := 0, py := 0, energy := 1, alive := true },
       { px := 3, py := 0, energy := 1, alive := true }]).1 1).alive = true := by
    norm_num [leachAfterBroadcast, leachElect, leachElectGo, leachReset,
      leachBroadcast, leachBroadcastOne, getN, setN, List.getD, dist2,
      SensorNode.pos, transmit_sq, receive, tx_cost_sq, e_elec, e_amp, ht, hr,
      List.set]
  have hf : (getN (leachAfterBroadcast (1/20) 1
      (fun k => if k = 0 then (0 : ℚ) else 1/2)
      [{ px := 0, py := 0, energy := 1, alive := true },
       { px := 3, py := 0, energy := 1, alive := true }]).1 1).is_cluster_head =
      false := by
    norm_num [leachAfterBroadcast, leachElect, leachElectGo, leachReset,
      leachBroadcast, leachBroadcastOne, getN, setN, List.getD, dist2,
      SensorNode.pos, transmit_sq, receive, tx_cost_sq, e_elec, e_amp, ht, hr,
      List.set]
  have hfm : firstMinBy (fun c =>
      dist2 (getN (leachAfterBroadcast (1/20) 1
        (fun k => if k = 0 then (0 : ℚ) else 1/2)
        [{ px := 0, py := 0, energy := 1, alive := true },
         { px := 3, py := 0, energy := 1, alive := true }]).1 1).pos
        (getN (leachAfterBroadcast (1/20) 1
          (fun k => if k = 0 then (0 : ℚ) else 1/2)
          [{ px := 0, py := 0, energy := 1, alive := true },
           { px := 3, py := 0, energy := 1, alive := true }]).1 c).pos)
      (leachAfterBroadcast (1/20) 1
        (fun k => if k = 0 then (0 : ℚ) else 1/2)
        [{ px := 0, py := 0, energy := 1, alive := true },
         { px := 3, py := 0, energy := 1, alive := true }]).2 = some (0, 9) := by
    norm_num [leachAfterBroadcast, leachElect, leachElectGo, leachReset,
      leachBroadcast, leachBroadcastOne, getN, setN, List.getD, dist2,
      SensorNode.pos, transmit_sq, receive, tx_cost_sq, e_elec, e_amp, ht, hr,
      List.set, firstMinBy, firstMinAux]
  exact ⟨ha, (C5_leach_join (1/20) 1
    (fun k => if k = 0 then (0 : ℚ) else 1/2)
    [{ px := 0, py := 0, energy := 1, alive := true },
     { px := 3, py := 0, energy := 1, alive := true }] 1 0 9 ha hf hfm).2.1⟩

/-- Witness for C4 (amended): a single live node with draw 0 at `p = 1/20`,
round 1 is elected. -/
theorem C4_leach_election_witness :
    (0 : ℕ) < 1 ∧
      ((getN (leachElect (1/20) 1 (fun _ => 0)
          (leachReset [{ px := 0, py := 0, energy := 1, alive := true }])).1
          0).is_cluster_head = true ↔ True) := by
  have h := (C4_leach_election (1/20) 1 (fun _ => 0)
    [{ px := 0, py := 0, energy := 1, alive := true }] 0 (by norm_num)).1
  refine ⟨by norm_num, ?_⟩
  rw [h]
  have hf : (⌊(1 : ℚ)/(1/20)⌋ : ℤ) = 20 := by
    rw [Int.floor_eq_iff]
    norm_num
  have ht : leachThreshold (1/20) 1 = 1/19 := by
    have h1 : (1 % Int.toNat (20 : ℤ) : ℕ) = 1 := rfl
    simp only [leachThreshold, hf, h1]
    norm_num
  simp only [getN, List.getD, ht]
  norm_num

end WSN

namespace WSN

/-! ## PEGASIS: chain construction (C6) -/

theorem dist2_nonneg (p q : ℚ × ℚ) : 0 ≤ dist2 p q :=
  add_nonneg (sq_nonneg _) (sq_nonneg _)

theorem maxScan_spec (f : ℕ → ℚ) :
    ∀ (l : List ℕ) (cur : Option ℕ) (curv : ℚ),
      (((maxScan f cur curv l).1 = cur ∧ (maxScan f cur curv l).2 = curv) ∨
        (∃ j ∈ l, (maxScan f cur curv l).1 = some j ∧
          (maxScan f cur curv l).2 = f j)) ∧
      curv ≤ (maxScan f cur curv l).2 ∧
      ∀ x ∈ l, f x ≤ (maxScan f cur curv l).2 := by
  intro l
  induction l with
  | nil =>
      intro cur curv
      exact ⟨Or.inl ⟨rfl, rfl⟩, le_refl _,
        fun x hx => absurd hx (List.not_mem_nil x)⟩
  | cons a t ih =>
      intro cur curv
      simp only [maxScan]
      by_cases h : f a > curv
      · rw [if_pos h]
        obtain ⟨ha, hb, hc⟩ := ih (some a) (f a)
        refine ⟨?_, le_trans (le_of_lt h) hb, ?_⟩
        · rcases ha with ⟨h1, h2⟩ | ⟨j, hj, h1, h2⟩
          · exact Or.inr ⟨a, List.mem_cons_self a t, h1, h2⟩
          · exact Or.inr ⟨j, List.mem_cons_of_mem a hj, h1, h2⟩
        · intro x hx
          rcases List.mem_cons.mp hx with hx | hx
          · rw [hx]; exact hb
          · exact hc x hx
      · rw [if_neg h]
        obtain ⟨ha, hb, hc⟩ := ih cur curv
        refine ⟨?_, hb, ?_⟩
        · rcases ha with ⟨h1, h2⟩ | ⟨j, hj, h1, h2⟩
          · exact Or.inl ⟨h1, h2⟩
          · exact Or.inr ⟨j, List.mem_cons_of_mem a hj, h1, h2⟩
        · intro x hx
          rcases List.mem_cons.mp hx with hx | hx
          · rw [hx]
            exact le_trans (le_of_not_lt h) hb
          · exact hc x hx

theorem pegasisGreedy_spec (ns : List SensorNode) :
    ∀ (n : ℕ) (remaining : List ℕ) (last : ℕ), remaining.length = n →
      List.Perm (pegasisGreedy ns n last remaining) remaining ∧
      isGreedyChain ns last remaining (pegasisGreedy ns n last remaining) := by
  intro n
  induction n with
  | zero =>
      intro remaining last hlen
      have hnil : remaining = [] := List.eq_nil_of_length_eq_zero hlen
      subst hnil
      exact ⟨List.Perm.refl _, rfl⟩
  | succ n ih =>
      intro remaining last hlen
      cases remaining with
      | nil => cases hlen
      | cons a t =>
          obtain ⟨nxt, v, heq, hmem, hval, hmin⟩ := firstMinBy_cons_spec
            (fun i => dist2 (getN ns last).pos (getN ns i).pos) a t
          simp only [pegasisGreedy]
          rw [heq]
          dsimp only
          have hlen' : ((a :: t).erase nxt).length = n := by
            rw [List.length_erase_of_mem hmem]
            simp only [List.length_cons] at hlen ⊢
            omega
          obtain ⟨ihp, ihg⟩ := ih ((a :: t).erase nxt) nxt hlen'
          constructor
          · exact (ihp.cons nxt).trans (List.perm_cons_erase hmem).symm
          · exact ⟨hmem, fun y hy => hval ▸ hmin y hy, ihg⟩

/-- C6.  Whenever at least one live node exists, `construct_chain` starts at
a live node of maximal distance to the base station, repeatedly appends a
not-yet-included live node nearest to the current chain end
(`isGreedyChain`), contains no node twice, and is in fact a permutation of
the live-node set. -/
theorem C6_pegasis_chain (ns : List SensorNode) (bs : ℚ × ℚ)
    (h : (List.range ns.length).filter (fun i => (getN ns i).alive) ≠ []) :
    ∃ s rest,
      construct_chain ns bs = s :: rest ∧
      s ∈ (List.range ns.length).filter (fun i => (getN ns i).alive) ∧
      (∀ j ∈ (List.range ns.length).filter (fun i => (getN ns i).alive),
        dist2 (getN ns j).pos bs ≤ dist2 (getN ns s).pos bs) ∧
      isGreedyChain ns s
        (((List.range ns.length).filter
          (fun i => (getN ns i).alive)).erase s) rest ∧
      (construct_chain ns bs).Nodup ∧
      List.Perm (construct_chain ns bs)
        ((List.range ns.length).filter (fun i => (getN ns i).alive)) := by
  obtain ⟨hcase, hge, hmax⟩ := maxScan_spec (fun i => dist2 (getN ns i).pos bs)
    ((List.range ns.length).filter (fun i => (getN ns i).alive)) none (-1)
  rcases hcase with ⟨h1, h2⟩ | ⟨s, hs, h1, h2⟩
  · exfalso
    cases hl : (List.range ns.length).filter (fun i => (getN ns i).alive) with
    | nil => exact h hl
    | cons a t =>
        have ha : a ∈ (List.range ns.length).filter
            (fun i => (getN ns i).alive) := by
          rw [hl]; exact List.mem_cons_self a t
        have h3 := hmax a ha
        rw [h2] at h3
        have h4 := dist2_nonneg (getN ns a).pos bs
        linarith
  · have hchain : construct_chain ns bs =
        s :: pegasisGreedy ns
          ((((List.range ns.length).filter
            (fun i => (getN ns i).alive)).erase s).length) s
          (((List.range ns.length).filter
            (fun i => (getN ns i).alive)).erase s) := by
      simp only [construct_chain]
      rw [h1]
    obtain ⟨hperm, hgreedy⟩ := pegasisGreedy_spec ns
      ((((List.range ns.length).filter
        (fun i => (getN ns i).alive)).erase s).length)
      (((List.range ns.length).filter (fun i => (getN ns i).alive)).erase s)
      s rfl
    have hpermall : List.Perm (construct_chain ns bs)
        ((List.range ns.length).filter (fun i => (getN ns i).alive)) := by
      rw [hchain]
      exact (hperm.cons s).trans (List.perm_cons_erase hs).symm
    have hnodup : (construct_chain ns bs).Nodup :=
      (List.Perm.nodup hpermall.symm)
        (List.Nodup.filter _ (List.nodup_range ns.length))
    refine ⟨s, _, hchain, hs, ?_, hgreedy, hnodup, hpermall⟩
    intro j hj
    have h3 := hmax j hj
    rw [h2] at h3
    exact h3

/-- Witness for C6 at a concrete two-node network. -/
theorem C6_pegasis_chain_witness :
    (List.range ([{ px := 0, py := 0, energy := 1, alive := true },
        { px := 5, py := 0, energy := 1, alive := true }] :
          List SensorNode).length).filter
      (fun i => (getN [{ px := 0, py := 0, energy := 1, alive := true },
        { px := 5, py := 0, energy := 1, alive := true }] i).alive) ≠ [] ∧
    ∃ s rest, construct_chain
        [{ px := 0, py := 0, energy := 1, alive := true },
         { px := 5, py := 0, energy := 1, alive := true }] (0, 0) = s :: rest := by
  have hne : (List.range ([{ px := 0, py := 0, energy := 1, alive := true },
      { px := 5, py := 0, energy := 1, alive := true }] :
        List SensorNode).length).filter
      (fun i => (getN [{ px := 0, py := 0, energy := 1, alive := true },
        { px := 5, py := 0, energy := 1, alive := true }] i).alive) ≠ [] := by
    have hr : List.range 2 = [0, 1] := rfl
    simp [hr, getN, List.getD]
  obtain ⟨s, rest, hchain, _⟩ := C6_pegasis_chain
    [{ px := 0, py := 0, energy := 1, alive := true },
     { px := 5, py := 0, energy := 1, alive := true }] (0, 0) hne
  exact ⟨hne, s, rest, hchain⟩

end WSN

namespace WSN

/-! ## Directed Diffusion: association-list lemmas -/

theorem lookupA_eq_none_of_not_mem {α : Type} (k : ℕ) :
    ∀ (l : List (ℕ × α)), k ∉ l.map Prod.fst → lookupA k l = none := by
  intro l
  induction l with
  | nil => intro _; rfl
  | cons a t ih =>
      intro h
      simp only [List.map_cons, List.mem_cons] at h
      push_neg at h
      simp only [lookupA]
      rw [if_neg (fun he => h.1 he.symm)]
      exact ih h.2

theorem lookupA_of_mem_nodup {α : Type} :
    ∀ (l : List (ℕ × α)), (l.map Prod.fst).Nodup → ∀ e ∈ l,
      lookupA e.1 l = some e.2 := by
  intro l
  induction l with
  | nil => intro _ e he; exact absurd he (List.not_mem_nil e)
  | cons a t ih =>
      intro hnd e he
      rw [List.map_cons] at hnd
      have hnd2 := List.nodup_cons.mp hnd
      rcases List.mem_cons.mp he with he | he
      · subst he
        simp [lookupA]
      · simp only [lookupA]
        by_cases hk : a.1 = e.1
        · exfalso
          apply hnd2.1
          rw [hk]
          exact List.mem_map.mpr ⟨e, he, rfl⟩
        · rw [if_neg hk]
          exact ih hnd2.2 e he

theorem mem_eq_of_nodup_keys {α : Type} :
    ∀ (l : List (ℕ × α)), (l.map Prod.fst).Nodup → ∀ a ∈ l, ∀ b ∈ l,
      a.1 = b.1 → a = b := by
  intro l
  induction l with
  | nil => intro _ a ha; exact absurd ha (List.not_mem_nil a)
  | cons x t ih =>
      intro hnd a ha b hb hab
      rw [List.map_cons] at hnd
      have hnd2 := List.nodup_cons.mp hnd
      rcases List.mem_cons.mp ha with ha | ha <;>
        rcases List.mem_cons.mp hb with hb | hb
      · rw [ha, hb]
      · exfalso
        apply hnd2.1
        rw [ha] at hab
        rw [hab]
        exact List.mem_map.mpr ⟨b, hb, rfl⟩
      · exfalso
        apply hnd2.1
        rw [hb] at hab
        rw [← hab]
        exact List.mem_map.mpr ⟨a, ha, rfl⟩
      · exact ih hnd2.2 a ha b hb hab

theorem eraseKey_keys_sublist {α : Type} (k : ℕ) :
    ∀ (l : List (ℕ × α)),
      ((eraseKey k l).map Prod.fst).Sublist (l.map Prod.fst) := by
  intro l
  induction l with
  | nil => exact List.Sublist.refl _
  | cons a t ih =>
      simp only [eraseKey]
      by_cases hk : a.1 = k
      · rw [if_pos hk]
        simp only [List.map_cons]
        exact (List.Sublist.refl _).cons _
      · rw [if_neg hk]
        simp only [List.map_cons]
        exact List.Sublist.cons₂ a.1 ih

theorem eraseKey_keys_nodup {α : Type} (k : ℕ) (l : List (ℕ × α))
    (h : (l.map Prod.fst).Nodup) : ((eraseKey k l).map Prod.fst).Nodup :=
  h.sublist (eraseKey_keys_sublist k l)

theorem lookupA_eraseKey_self {α : Type} (k : ℕ) :
    ∀ (l : List (ℕ × α)), (l.map Prod.fst).Nodup →
      lookupA k (eraseKey k l) = none := by
  intro l
  induction l with
  | nil => intro _; rfl
  | cons a t ih =>
      intro hnd
      rw [List.map_cons] at hnd
      have hnd2 := List.nodup_cons.mp hnd
      simp only [eraseKey]
      by_cases hk : a.1 = k
      · rw [if_pos hk]
        apply lookupA_eq_none_of_not_mem
        rw [← hk]
        exact hnd2.1
      · rw [if_neg hk]
        simp only [lookupA]
        rw [if_neg hk]
        exact ih hnd2.2

theorem lookupA_eraseKey_none {α : Type} (k j : ℕ) :
    ∀ (l : List (ℕ × α)), lookupA k l = none →
      lookupA k (eraseKey j l) = none := by
  intro l
  induction l with
  | nil => intro _; rfl
  | cons a t ih =>
      intro h
      simp only [lookupA] at h
      by_cases hk : a.1 = k
      · rw [if_pos hk] at h
        cases h
      · rw [if_neg hk] at h
        simp only [eraseKey]
        by_cases hj : a.1 = j
        · rw [if_pos hj]
          exact h
        · rw [if_neg hj]
          simp only [lookupA]
          rw [if_neg hk]
          exact ih h

theorem lookupA_eraseKey_ne {α : Type} (k j : ℕ) (h : j ≠ k) :
    ∀ (l : List (ℕ × α)), lookupA k (eraseKey j l) = lookupA k l := by
  intro l
  induction l with
  | nil => rfl
  | cons a t ih =>
      simp only [eraseKey, lookupA]
      by_cases hj : a.1 = j
      · rw [if_pos hj, if_neg (fun hk => h (hj.symm.trans hk))]
      · rw [if_neg hj]
        simp only [lookupA]
        by_cases hk : a.1 = k
        · rw [if_pos hk, if_pos hk]
        · rw [if_neg hk, if_neg hk]
          exact ih

theorem lookupA_setKey_self {α : Type} (k : ℕ) (v : α) :
    ∀ (l : List (ℕ × α)), lookupA k (setKey k v l) = some v := by
  intro l
  induction l with
  | nil => simp [setKey, lookupA]
  | cons a t ih =>
      simp only [setKey]
      by_cases hk : a.1 = k
      · rw [if_pos hk]
        simp only [lookupA]
        rw [if_pos hk]
      · rw [if_neg hk]
        simp only [lookupA]
        rw [if_neg hk]
        exact ih

theorem lookupA_setKey_ne {α : Type} (k j : ℕ) (v : α) (h : j ≠ k) :
    ∀ (l : List (ℕ × α)), lookupA k (setKey j v l) = lookupA k l := by
  intro l
  induction l with
  | nil =>
      simp only [setKey, lookupA]
      rw [if_neg h]
  | cons a t ih =>
      simp only [setKey]
      by_cases hj : a.1 = j
      · rw [if_pos hj]
        simp only [lookupA]
        rw [if_neg (fun hk : a.1 = k => h (hj.symm.trans hk)),
          if_neg (fun hk : a.1 = k => h (hj.symm.trans hk))]
      · rw [if_neg hj]
        simp only [lookupA]
        by_cases hk : a.1 = k
        · rw [if_pos hk, if_pos hk]
        · rw [if_neg hk, if_neg hk]
          exact ih

end WSN

namespace WSN

/-! ## Directed Diffusion: delivery and expiry (C8, C10) -/

theorem deliverStep_expired (now : ℚ) (fuel : ℕ) (s : DDState) (e : ℕ × ℚ)
    (h : now - e.2 > 50) :
    deliverStep now fuel s e =
      { s with events_detected := eraseKey e.1 s.events_detected } := by
  simp only [deliverStep]
  rw [if_pos h]

theorem deliverStep_events (now : ℚ) (fuel : ℕ) (s : DDState) (e : ℕ × ℚ) :
    (deliverStep now fuel s e).events_detected =
      if now - e.2 > 50 then eraseKey e.1 s.events_detected
      else s.events_detected := by
  simp only [deliverStep]
  by_cases h : now - e.2 > 50
  · rw [if_pos h, if_pos h]
  · rw [if_neg h, if_neg h]
    by_cases h2 : e.1 < s.nodes.length ∧ (getN s.nodes e.1).alive = true
    · rw [if_pos h2]
    · rw [if_neg h2]

theorem deliverStep_none_persists (now : ℚ) (fuel : ℕ) (s : DDState)
    (e : ℕ × ℚ) (k : ℕ) (h : lookupA k s.events_detected = none) :
    lookupA k (deliverStep now fuel s e).events_detected = none := by
  rw [deliverStep_events]
  by_cases he : now - e.2 > 50
  · rw [if_pos he]
    exact lookupA_eraseKey_none k e.1 _ h
  · rw [if_neg he]
    exact h

theorem deliverStep_keys_nodup (now : ℚ) (fuel : ℕ) (s : DDState) (e : ℕ × ℚ)
    (h : (s.events_detected.map Prod.fst).Nodup) :
    ((deliverStep now fuel s e).events_detected.map Prod.fst).Nodup := by
  rw [deliverStep_events]
  by_cases he : now - e.2 > 50
  · rw [if_pos he]
    exact eraseKey_keys_nodup e.1 _ h
  · rw [if_neg he]
    exact h

theorem deliverFold_none_persists (now : ℚ) (fuel : ℕ) :
    ∀ (l : List (ℕ × ℚ)) (s : DDState) (k : ℕ),
      lookupA k s.events_detected = none →
      lookupA k (l.foldl (deliverStep now fuel) s).events_detected = none := by
  intro l
  induction l with
  | nil => intro s k h; exact h
  | cons a t ih =>
      intro s k h
      simp only [List.foldl_cons]
      exact ih _ k (deliverStep_none_persists now fuel s a k h)

theorem deliverFold_expired_absent (now : ℚ) (fuel : ℕ) :
    ∀ (l : List (ℕ × ℚ)) (s : DDState),
      (s.events_detected.map Prod.fst).Nodup →
      ∀ e ∈ l, now - e.2 > 50 →
      lookupA e.1 (l.foldl (deliverStep now fuel) s).events_detected = none := by
  intro l
  induction l with
  | nil => intro s _ e he; exact absurd he (List.not_mem_nil e)
  | cons a t ih =>
      intro s hnd e he hexp
      simp only [List.foldl_cons]
      rcases List.mem_cons.mp he with he | he
      · subst he
        apply deliverFold_none_persists
        rw [deliverStep_events, if_pos hexp]
        exact lookupA_eraseKey_self e.1 _ hnd
      · exact ih _ (deliverStep_keys_nodup now fuel s a hnd) e he hexp

theorem deliverFold_all_expired (now : ℚ) (fuel : ℕ) :
    ∀ (l : List (ℕ × ℚ)) (s : DDState),
      s.events_detected = l →
      (∀ e ∈ l, now - e.2 > 50) →
      l.foldl (deliverStep now fuel) s = { s with events_detected := [] } := by
  intro l
  induction l with
  | nil =>
      intro s hev _
      obtain ⟨n, b, p, g, ev⟩ := s
      simp only at hev
      subst hev
      rfl
  | cons a t ih =>
      intro s hev hall
      simp only [List.foldl_cons]
      have hstep : deliverStep now fuel s a =
          { s with events_detected := t } := by
        rw [deliverStep_expired now fuel s a (hall a (List.mem_cons_self a t))]
        rw [hev]
        have : eraseKey a.1 (a :: t) = t := by
          simp [eraseKey]
        rw [this]
      rw [hstep]
      have := ih { s with events_detected := t } rfl
        (fun e he => hall e (List.mem_cons_of_mem a he))
      rw [this]

theorem deliverFold_keep (now : ℚ) (fuel : ℕ) :
    ∀ (l : List (ℕ × ℚ)) (s : DDState) (e : ℕ × ℚ),
      lookupA e.1 s.events_detected = some e.2 →
      (∀ a ∈ l, a.1 = e.1 → ¬(now - a.2 > 50)) →
      lookupA e.1 (l.foldl (deliverStep now fuel) s).events_detected =
        some e.2 := by
  intro l
  induction l with
  | nil => intro s e h _; exact h
  | cons a t ih =>
      intro s e h hl
      simp only [List.foldl_cons]
      apply ih _ e _ (fun x hx hxk => hl x (List.mem_cons_of_mem a hx) hxk)
      rw [deliverStep_events]
      by_cases he : now - a.2 > 50
      · rw [if_pos he]
        have hak : a.1 ≠ e.1 := fun hk =>
          hl a (List.mem_cons_self a t) hk he
        rw [lookupA_eraseKey_ne e.1 a.1 hak]
        exact h
      · rw [if_neg he]
        exact h

/-- C8.  In `deliver_data`, an event entry whose age exceeds 50 time units
is deleted from `events_detected` with no forwarding and no delivery: the
step on an expired entry changes nothing but the removal of that single
binding; after the call every expired key is gone; and if every entry is
expired, the whole call leaves nodes and base station untouched and empties
`events_detected`. -/
theorem C8_dd_expiry (now : ℚ) (fuel : ℕ) (s : DDState)
    (hnd : (s.events_detected.map Prod.fst).Nodup) :
    (∀ e : ℕ × ℚ, now - e.2 > 50 →
      deliverStep now fuel s e =
        { s with events_detected := eraseKey e.1 s.events_detected }) ∧
    (∀ e ∈ s.events_detected, now - e.2 > 50 →
      lookupA e.1 (deliver_data now fuel s).events_detected = none) ∧
    ((∀ e ∈ s.events_detected, now - e.2 > 50) →
      deliver_data now fuel s = { s with events_detected := [] }) := by
  refine ⟨fun e he => deliverStep_expired now fuel s e he, ?_, ?_⟩
  · intro e he hexp
    exact deliverFold_expired_absent now fuel s.events_detected s hnd e he hexp
  · intro hall
    exact deliverFold_all_expired now fuel s.events_detected s rfl hall

/-- Witness for C8: a one-event state whose entry is 60 time units old. -/
theorem C8_dd_expiry_witness :
    (([((0 : ℕ), (0 : ℚ))].map Prod.fst).Nodup) ∧
      (deliver_data 60 3
        { nodes := [{ px := 0, py := 0, energy := 1, alive := true }],
          bs := { pos := (0, 0) }, packet_size := 4000,
          gradients := [], events_detected := [(0, 0)] }).events_detected =
        [] := by
  have hnd : (([((0 : ℕ), (0 : ℚ))]).map Prod.fst).Nodup := by simp
  have h := (C8_dd_expiry 60 3
    { nodes := [{ px := 0, py := 0, energy := 1, alive := true }],
      bs := { pos := (0, 0) }, packet_size := 4000,
      gradients := [], events_detected := [(0, 0)] } hnd).2.2
  refine ⟨hnd, ?_⟩
  rw [h]
  intro e he
  simp only [List.mem_singleton] at he
  rw [he]
  norm_num

end WSN

namespace WSN

theorem liveRankIn_congr_mem (ns ns' : List SensorNode) (i : ℕ) :
    ∀ (l : List ℕ), (∀ x ∈ l, (getN ns' x).alive = (getN ns x).alive) →
      liveRankIn ns' i l = liveRankIn ns i l := by
  intro l
  induction l with
  | nil => intro _; rfl
  | cons j t ih =>
      intro h
      simp only [liveRankIn]
      rw [h j (List.mem_cons_self j t),
        ih (fun x hx => h x (List.mem_cons_of_mem j hx))]

theorem detectGo_keeps (now : ℚ) (draws : ℕ → ℚ) (ps : ℚ) :
    ∀ (idxs : List ℕ) (ns : List SensorNode) (ev : List (ℕ × ℚ)) (k i : ℕ),
      i ∉ idxs →
      lookupA i (detectGo now draws ps idxs ns ev k).2 = lookupA i ev := by
  intro idxs
  induction idxs with
  | nil => intro ns ev k i _; rfl
  | cons j rest ih =>
      intro ns ev k i hi
      have hij : j ≠ i := fun h => hi (h ▸ List.mem_cons_self j rest)
      have hir : i ∉ rest := fun h => hi (List.mem_cons_of_mem j h)
      simp only [detectGo]
      by_cases h1 : (getN ns j).alive = true
      · rw [if_pos h1]
        by_cases h2 : draws k < 1/100
        · rw [if_pos h2, ih _ _ _ _ hir]
          exact lookupA_setKey_ne i j now hij ev
        · rw [if_neg h2]
          exact ih _ _ _ _ hir
      · rw [if_neg h1]
        exact ih _ _ _ _ hir

theorem detectGo_lookup (now : ℚ) (draws : ℕ → ℚ) (ps : ℚ) :
    ∀ (idxs : List ℕ) (ns : List SensorNode) (ev : List (ℕ × ℚ)) (k i : ℕ),
      idxs.Nodup → i ∈ idxs → (getN ns i).alive = true →
      draws (k + liveRankIn ns i idxs) < 1/100 →
      lookupA i (detectGo now draws ps idxs ns ev k).2 = some now := by
  intro idxs
  induction idxs with
  | nil => intro ns ev k i _ hi; exact absurd hi (List.not_mem_nil i)
  | cons j rest ih =>
      intro ns ev k i hnd hi ha hdraw
      have hndr : rest.Nodup := (List.nodup_cons.mp hnd).2
      have hjr : j ∉ rest := (List.nodup_cons.mp hnd).1
      simp only [detectGo]
      by_cases hji : j = i
      · subst hji
        rw [if_pos ha]
        have hr0 : liveRankIn ns j (j :: rest) = 0 := by
          simp [liveRankIn]
        rw [hr0, Nat.add_zero] at hdraw
        rw [if_pos hdraw]
        rw [detectGo_keeps now draws ps rest _ _ _ j hjr]
        exact lookupA_setKey_self j now ev
      · have hir : i ∈ rest := by
          rcases List.mem_cons.mp hi with h | h
          · exact absurd h.symm hji
          · exact h
        have hij : i ≠ j := fun h => hji h.symm
        by_cases h1 : (getN ns j).alive = true
        · rw [if_pos h1]
          have hrank : liveRankIn ns i (j :: rest) =
              1 + liveRankIn ns i rest := by
            simp only [liveRankIn]
            rw [if_neg hji, if_pos h1]
          by_cases h2 : draws k < 1/100
          · rw [if_pos h2]
            apply ih _ _ _ i hndr hir
            · rw [getN_set_ne ns j i _ (fun h => hij h.symm)]
              exact ha
            · have hcong : liveRankIn
                  (setN ns j (sense (getN ns j) ps).1) i rest =
                  liveRankIn ns i rest := by
                apply liveRankIn_congr_mem
                intro x hx
                have hxj : j ≠ x := fun h => hjr (h ▸ hx)
                rw [getN_set_ne ns j x _ hxj]
              rw [hcong]
              rw [hrank] at hdraw
              have : k + 1 + liveRankIn ns i rest =
                  k + (1 + liveRankIn ns i rest) := by omega
              rw [this]
              exact hdraw
          · rw [if_neg h2]
            apply ih _ _ _ i hndr hir ha
            rw [hrank] at hdraw
            have : k + 1 + liveRankIn ns i rest =
                k + (1 + liveRankIn ns i rest) := by omega
            rw [this]
            exact hdraw
        · rw [if_neg h1]
          apply ih _ _ _ i hndr hir ha
          have hrank : liveRankIn ns i (j :: rest) =
              liveRankIn ns i rest := by
            simp only [liveRankIn]
            rw [if_neg hji, if_neg h1]
            omega
          rw [hrank] at hdraw
          exact hdraw

theorem getN_cons_zero (a : SensorNode) (t : List SensorNode) :
    getN (a :: t) 0 = a := rfl

theorem getN_cons_one (a b : SensorNode) (t : List SensorNode) :
    getN (a :: b :: t) 1 = b := rfl

theorem setN_cons_zero (a : SensorNode) (t : List SensorNode) (x : SensorNode) :
    setN (a :: t) 0 x = x :: t := rfl

theorem setN_cons_one (a b : SensorNode) (t : List SensorNode)
    (x : SensorNode) : setN (a :: b :: t) 1 x = a :: x :: t := rfl

set_option maxHeartbeats 4000000 in
/-- C10.  A non-expired event entry survives `deliver_data` untouched even
when its data is successfully delivered (delivery never deletes from
`events_detected`); `detect_events` overwrites the detecting node's entry
with the current time; and on a concrete two-node state with one fresh
event, two consecutive `deliver_data` calls deliver the same event twice —
the base station's packet counter reaches 2 while the entry is still
present. -/
theorem C10_dd_redelivery (now nowD : ℚ) (fuel : ℕ) (s : DDState)
    (draws : ℕ → ℚ) (hnd : (s.events_detected.map Prod.fst).Nodup) :
    (∀ e ∈ s.events_detected, ¬(now - e.2 > 50) →
      lookupA e.1 (deliver_data now fuel s).events_detected = some e.2) ∧
    (∀ i, i < s.nodes.length → (getN s.nodes i).alive = true →
      draws (liveRankIn s.nodes i (List.range s.nodes.length)) < 1/100 →
      lookupA i (detect_events nowD draws s).events_detected = some nowD) ∧
    ((deliver_data 10 1 (deliver_data 10 1
        { nodes := [{ px := 30, py := 0, energy := 1, alive := true },
                    { px := 10, py := 0, energy := 1, alive := true }],
          bs := { pos := (0, 0) }, packet_size := 4000,
          gradients := [(0, [(1, 1)]), (1, [])],
          events_detected := [(0, 0)] })).bs.packets_received = 2 ∧
      lookupA 0 (deliver_data 10 1 (deliver_data 10 1
        { nodes := [{ px := 30, py := 0, energy := 1, alive := true },
                    { px := 10, py := 0, energy := 1, alive := true }],
          bs := { pos := (0, 0) }, packet_size := 4000,
          gradients := [(0, [(1, 1)]), (1, [])],
          events_detected := [(0, 0)] })).events_detected = some 0) := by
  refine ⟨?_, ?_, ?_⟩
  · intro e he hne
    apply deliverFold_keep now fuel s.events_detected s e
      (lookupA_of_mem_nodup s.events_detected hnd e he)
    intro a ha hak hexp
    have : a = e := mem_eq_of_nodup_keys s.events_detected hnd a ha e he hak
    rw [this] at hexp
    exact hne hexp
  · intro i hlen ha hdraw
    show lookupA i (detectGo nowD draws s.packet_size
      (List.range s.nodes.length) s.nodes s.events_detected 0).2 = some nowD
    apply detectGo_lookup nowD draws s.packet_size
      (List.range s.nodes.length) s.nodes s.events_detected 0 i
      (List.nodup_range _) (List.mem_range.mpr hlen) ha
    rw [Nat.zero_add]
    exact hdraw
  · constructor <;>
      norm_num [deliver_data, deliverStep, ddForward, ddNextHop, lookupA,
        eraseKey, getN_cons_zero, getN_cons_one, setN_cons_zero, setN_cons_one,
        dist2, SensorNode.pos,
        transmit_sq, receive, receive_data, tx_cost_sq, calculate_rx_energy,
        e_elec, e_amp, List.foldl_cons, List.foldl_nil]

/-- Witness for C10 at a concrete one-event state. -/
theorem C10_dd_redelivery_witness :
    (([((0 : ℕ), (0 : ℚ))].map Prod.fst).Nodup) ∧
      lookupA 0 (deliver_data 10 1
        { nodes := [{ px := 30, py := 0, energy := 1, alive := true },
                    { px := 10, py := 0, energy := 1, alive := true }],
          bs := { pos := (0, 0) }, packet_size := 4000,
          gradients := [(0, [(1, 1)]), (1, [])],
          events_detected := [((0 : ℕ), (0 : ℚ))] }).events_detected =
        some 0 := by
  have hnd : (([((0 : ℕ), (0 : ℚ))]).map Prod.fst).Nodup := by simp
  refine ⟨hnd, ?_⟩
  have h := (C10_dd_redelivery 10 0 1
    { nodes := [{ px := 30, py := 0, energy := 1, alive := true },
                { px := 10, py := 0, energy := 1, alive := true }],
      bs := { pos := (0, 0) }, packet_size := 4000,
      gradients := [(0, [(1, 1)]), (1, [])],
      events_detected := [((0 : ℕ), (0 : ℚ))] } (fun _ => 0) hnd).1
  have := h (0, 0) (List.mem_singleton.mpr rfl) (by norm_num)
  exact this

end WSN

namespace WSN

/-! ## GEAR: expansion, reconstruction and closure lemmas (C7) -/

theorem contains_eq_true_iff (l : List ℕ) (a : ℕ) :
    l.contains a = true ↔ a ∈ l := List.elem_iff

theorem gearExpand_spec (current : ℕ) :
    ∀ (lst : List ℕ) (ns : List SensorNode) (queue visited : List ℕ)
      (prev : List (ℕ × ℕ)), lst.Nodup → current ∉ lst →
      (gearExpand current lst ns queue visited prev).2.1 = queue ++ lst ∧
      (gearExpand current lst ns queue visited prev).2.2.1 = visited ++ lst ∧
      (∀ v, lookupA v (gearExpand current lst ns queue visited prev).2.2.2 =
        if v ∈ lst then some current else lookupA v prev) ∧
      (∀ i, i ≠ current → i ∉ lst →
        getN (gearExpand current lst ns queue visited prev).1 i = getN ns i) ∧
      (∀ i, (getN (gearExpand current lst ns queue visited prev).1 i).neighbors =
        (getN ns i).neighbors) ∧
      (gearExpand current lst ns queue visited prev).1.length = ns.length := by
  intro lst
  induction lst with
  | nil =>
      intro ns queue visited prev _ _
      refine ⟨by simp [gearExpand], by simp [gearExpand], ?_, ?_, ?_, rfl⟩
      · intro v
        simp [gearExpand]
      · intro i _ _
        rfl
      · intro i
        rfl
  | cons nb rest ih =>
      intro ns queue visited prev hnd hcur
      have hndr : rest.Nodup := (List.nodup_cons.mp hnd).2
      have hnbr : nb ∉ rest := (List.nodup_cons.mp hnd).1
      have hcurr : current ∉ rest := fun h => hcur (List.mem_cons_of_mem nb h)
      have hcnb : current ≠ nb := fun h => hcur (h ▸ List.mem_cons_self nb rest)
      simp only [gearExpand]
      obtain ⟨e1, e2, e3, e4, e5, e6⟩ := ih
        (setN (setN ns current
          (transmit_sq (getN ns current) 50
            (dist2 (getN ns current).pos (getN ns nb).pos)).1) nb
          (receive (getN (setN ns current
            (transmit_sq (getN ns current) 50
              (dist2 (getN ns current).pos (getN ns nb).pos)).1) nb) 50).1)
        (queue ++ [nb]) (visited ++ [nb]) (setKey nb current prev) hndr hcurr
      refine ⟨?_, ?_, ?_, ?_, ?_, ?_⟩
      · rw [e1, List.append_assoc]
        rfl
      · rw [e2, List.append_assoc]
        rfl
      · intro v
        rw [e3 v]
        by_cases hv : v ∈ rest
        · rw [if_pos hv, if_pos (List.mem_cons_of_mem nb hv)]
        · rw [if_neg hv]
          by_cases hvn : v = nb
          · subst hvn
            rw [if_pos (List.mem_cons_self v rest)]
            exact lookupA_setKey_self v current prev
          · rw [if_neg (fun h => by
              rcases List.mem_cons.mp h with h | h
              · exact hvn h
              · exact hv h)]
            exact lookupA_setKey_ne v nb current (fun h => hvn h.symm) prev
      · intro i hic hil
        have hinb : i ≠ nb := fun h => hil (h ▸ List.mem_cons_self nb rest)
        have hirest : i ∉ rest := fun h => hil (List.mem_cons_of_mem nb h)
        rw [e4 i hic hirest, getN_setN, if_neg (fun h => hinb h.1.symm),
          getN_setN, if_neg (fun h => hic h.1.symm)]
      · intro i
        rw [e5 i]
        rw [getN_setN]
        by_cases h1 : nb = i ∧ nb < (setN ns current
            (transmit_sq (getN ns current) 50
              (dist2 (getN ns current).pos (getN ns nb).pos)).1).length
        · rw [if_pos h1, (receive_pres _ 50).2.2.2.2]
          rcases h1 with ⟨h1, _⟩
          subst h1
          rw [getN_setN]
          by_cases h2 : current = nb ∧ current < ns.length
          · exact absurd h2.1 hcnb
          · rw [if_neg h2]
        · rw [if_neg h1, getN_setN]
          by_cases h2 : current = i ∧ current < ns.length
          · rw [if_pos h2, (transmit_sq_pres _ 50 _).2.2.2.2, h2.1]
          · rw [if_neg h2]
      · rw [e6, length_setN, length_setN]

theorem gearReconstruct_spec (ns0 : List SensorNode) (s : ℕ)
    (visited : List ℕ) (prev : List (ℕ × ℕ))
    (hok : PrevOK ns0 s visited prev) :
    ∀ (fuel v : ℕ), v ∈ visited → visited.indexOf v < fuel →
      (gearReconstruct prev s fuel v).head? = some v ∧
      (gearReconstruct prev s fuel v).getLast? = some s ∧
      (∀ a ∈ gearReconstruct prev s fuel v, a ∈ visited ∧
        visited.indexOf a ≤ visited.indexOf v) ∧
      (gearReconstruct prev s fuel v).Nodup ∧
      prevChainAdj ns0 (gearReconstruct prev s fuel v) := by
  intro fuel
  induction fuel with
  | zero => intro v _ hlt; cases hlt
  | succ fuel ih =>
      intro v hv hlt
      by_cases hvs : v = s
      · subst hvs
        simp only [gearReconstruct, if_pos rfl]
        exact ⟨rfl, rfl, fun a ha => by
          rw [List.mem_singleton.mp ha]
          exact ⟨hv, le_refl _⟩, List.nodup_singleton v, trivial⟩
      · obtain ⟨p, hp1, hp2, hp3, hp4⟩ := hok.2.2.2 v hv hvs
        simp only [gearReconstruct, if_neg hvs]
        rw [hp1]
        dsimp only
        have hplt : visited.indexOf p < fuel := by omega
        obtain ⟨r1, r2, r3, r4, r5⟩ := ih p hp2 hplt
        refine ⟨rfl, ?_, ?_, ?_, ?_⟩
        · cases hr : gearReconstruct prev s fuel p with
          | nil => rw [hr] at r1; simp at r1
          | cons x t =>
              rw [List.getLast?_cons_cons]
              rw [hr] at r2
              exact r2
        · intro a ha
          rcases List.mem_cons.mp ha with ha | ha
          · subst ha
            exact ⟨hv, le_refl _⟩
          · obtain ⟨ha1, ha2⟩ := r3 a ha
            exact ⟨ha1, le_trans ha2 (le_of_lt hp4)⟩
        · rw [List.nodup_cons]
          refine ⟨?_, r4⟩
          intro hvin
          have := (r3 v hvin).2
          omega
        · cases hr : gearReconstruct prev s fuel p with
          | nil => rw [hr] at r1; simp at r1
          | cons x t =>
              have hx : x = p := by
                rw [hr] at r1
                simpa using r1
              rw [hr] at r5
              simp only [prevChainAdj]
              rw [hx] at r5 ⊢
              exact ⟨hp3, r5⟩

end WSN

namespace WSN

theorem chainAdj_iff_chain (ns : List SensorNode) :
    ∀ l : List ℕ, chainAdj ns l ↔
      List.Chain' (fun a b => b ∈ (getN ns a).neighbors) l := by
  intro l
  induction l with
  | nil => simp [chainAdj, List.chain'_nil]
  | cons a t ih =>
      cases t with
      | nil => simp [chainAdj, List.chain'_singleton]
      | cons b t' =>
          rw [List.chain'_cons]
          simp only [chainAdj]
          exact and_congr Iff.rfl ih

theorem prevChainAdj_iff_chain (ns : List SensorNode) :
    ∀ l : List ℕ, prevChainAdj ns l ↔
      List.Chain' (fun a b => a ∈ (getN ns b).neighbors) l := by
  intro l
  induction l with
  | nil => simp [prevChainAdj, List.chain'_nil]
  | cons a t ih =>
      cases t with
      | nil => simp [prevChainAdj, List.chain'_singleton]
      | cons b t' =>
          rw [List.chain'_cons]
          simp only [prevChainAdj]
          exact and_congr Iff.rfl ih

theorem prevChainAdj_reverse (ns : List SensorNode) (l : List ℕ)
    (h : prevChainAdj ns l) : chainAdj ns l.reverse := by
  rw [chainAdj_iff_chain, List.chain'_reverse]
  rw [prevChainAdj_iff_chain] at h
  exact h

theorem gearCandidates_mem (ns : List SensorNode) (visited : List ℕ)
    (cur nb : ℕ) : nb ∈ gearCandidates ns visited cur ↔
      nb ∈ (getN ns cur).neighbors ∧ (getN ns nb).alive = true ∧
        nb ∉ visited := by
  simp only [gearCandidates, List.mem_filter, Bool.and_eq_true,
    Bool.not_eq_true']
  constructor
  · rintro ⟨h1, h2, h3⟩
    refine ⟨h1, h2, fun hmem => ?_⟩
    rw [(contains_eq_true_iff visited nb).mpr hmem] at h3
    cases h3
  · rintro ⟨h1, h2, h3⟩
    refine ⟨h1, h2, ?_⟩
    cases hc : visited.contains nb with
    | false => rfl
    | true => exact absurd ((contains_eq_true_iff visited nb).mp hc) h3

theorem gearCandidates_nodup (ns : List SensorNode) (visited : List ℕ)
    (cur : ℕ) (h : (getN ns cur).neighbors.Nodup) :
    (gearCandidates ns visited cur).Nodup :=
  List.Nodup.filter _ h

theorem isLivePath_head_alive (ns : List SensorNode) :
    ∀ l : List ℕ, isLivePath ns l → ∀ x, l.head? = some x →
      (getN ns x).alive = true := by
  intro l
  cases l with
  | nil => intro h; cases h
  | cons a t =>
      intro h x hx
      have hax : a = x := by simpa using hx
      subst hax
      cases t with
      | nil => exact h
      | cons b t' => exact h.1

theorem livePath_closed (ns : List SensorNode) (visited : List ℕ)
    (hcl : ∀ v ∈ visited, ∀ nb ∈ (getN ns v).neighbors,
      (getN ns nb).alive = true → nb ∈ visited) :
    ∀ l : List ℕ, isLivePath ns l → ∀ x, l.head? = some x →
      x ∈ visited → ∀ a ∈ l, a ∈ visited := by
  intro l
  induction l with
  | nil => intro h; cases h
  | cons y t ih =>
      intro h x hx hxv a ha
      have hyx : y = x := by simpa using hx
      subst hyx
      cases t with
      | nil =>
          rw [List.mem_singleton.mp ha]
          exact hxv
      | cons b t' =>
          obtain ⟨hal, hnb, hrest⟩ := h
          have hbl : (getN ns b).alive = true :=
            isLivePath_head_alive ns (b :: t') hrest b rfl
          have hbv : b ∈ visited := hcl y hxv b hnb hbl
          rcases List.mem_cons.mp ha with ha | ha
          · rw [ha]; exact hxv
          · exact ih hrest b rfl hbv a ha

end WSN

namespace WSN

theorem mem_liveIdx (ns : List SensorNode) (i : ℕ) :
    i ∈ liveIdx ns ↔ (getN ns i).alive = true := by
  simp only [liveIdx, List.mem_filter, List.mem_range]
  constructor
  · exact fun h => h.2
  · exact fun h => ⟨alive_lt_length ns i h, h⟩

theorem liveIdx_length_le (ns : List SensorNode) :
    (liveIdx ns).length ≤ ns.length :=
  le_trans (List.length_filter_le _ _) (le_of_eq (List.length_range _))

theorem visited_card_le (ns0 : List SensorNode) (visited : List ℕ)
    (hnd : visited.Nodup)
    (hall : ∀ v ∈ visited, (getN ns0 v).alive = true) :
    visited.length ≤ (liveIdx ns0).length :=
  (List.subperm_of_subset hnd
    (fun v hv => (mem_liveIdx ns0 v).mpr (hall v hv))).length_le

theorem gear_closed_no_path (ns0 : List SensorNode) (s target : ℕ)
    (visited : List ℕ) (hs : s ∈ visited) (htv : target ∉ visited)
    (hcl : ∀ v ∈ visited, ∀ nb ∈ (getN ns0 v).neighbors,
      (getN ns0 nb).alive = true → nb ∈ visited) :
    ∀ l, isLivePath ns0 l → l.head? = some s → target ∉ l := by
  intro l hl hh ht
  exact htv (livePath_closed ns0 visited hcl l hl s hh hs target ht)

theorem gearLoop_zero (reorder : List SensorNode → ℕ → List ℕ → List ℕ)
    (target s : ℕ) (ns : List SensorNode) (queue visited : List ℕ)
    (prev : List (ℕ × ℕ)) :
    gearLoop reorder target s 0 ns queue visited prev = (none, ns) := rfl

theorem gearLoop_nil (reorder : List SensorNode → ℕ → List ℕ → List ℕ)
    (target s fuel : ℕ) (ns : List SensorNode) (visited : List ℕ)
    (prev : List (ℕ × ℕ)) :
    gearLoop reorder target s (fuel + 1) ns [] visited prev = (none, ns) :=
  rfl

theorem gearLoop_cons_eq (reorder : List SensorNode → ℕ → List ℕ → List ℕ)
    (target s fuel : ℕ) (ns : List SensorNode) (rest visited : List ℕ)
    (prev : List (ℕ × ℕ)) :
    gearLoop reorder target s (fuel + 1) ns (target :: rest) visited prev =
      (some (gearReconstruct prev s ns.length target).reverse, ns) := by
  simp [gearLoop]

theorem gearLoop_cons_ne (reorder : List SensorNode → ℕ → List ℕ → List ℕ)
    (target s fuel : ℕ) (ns : List SensorNode) (cur : ℕ)
    (rest visited : List ℕ) (prev : List (ℕ × ℕ)) (hct : cur ≠ target) :
    gearLoop reorder target s (fuel + 1) ns (cur :: rest) visited prev =
      gearLoop reorder target s fuel
        (gearExpand cur (reorder ns cur (gearCandidates ns visited cur))
          ns rest visited prev).1
        (gearExpand cur (reorder ns cur (gearCandidates ns visited cur))
          ns rest visited prev).2.1
        (gearExpand cur (reorder ns cur (gearCandidates ns visited cur))
          ns rest visited prev).2.2.1
        (gearExpand cur (reorder ns cur (gearCandidates ns visited cur))
          ns rest visited prev).2.2.2 := by
  simp only [gearLoop, if_neg hct]

end WSN

namespace WSN

theorem gearLoop_spec (reorder : List SensorNode → ℕ → List ℕ → List ℕ)
    (hre : ∀ ns c l, (reorder ns c l).Perm l)
    (ns0 : List SensorNode) (hnb : ∀ i, (getN ns0 i).neighbors.Nodup)
    (s target : ℕ) :
    ∀ (fuel : ℕ) (ns : List SensorNode) (queue visited : List ℕ)
      (prev : List (ℕ × ℕ)),
      GearInv ns0 s target ns queue visited prev →
      queue.length + (liveIdx ns0).length ≤ fuel + visited.length →
      ((gearLoop reorder target s fuel ns queue visited prev).1 = none →
        ∀ l, isLivePath ns0 l → l.head? = some s → target ∉ l) ∧
      (∀ route,
        (gearLoop reorder target s fuel ns queue visited prev).1 =
          some route →
        route.head? = some s ∧ route.getLast? = some target ∧
        route.Nodup ∧ (∀ a ∈ route, (getN ns0 a).alive = true) ∧
        chainAdj ns0 route) := by
  intro fuel
  induction fuel with
  | zero =>
      intro ns queue visited prev hinv hfuel
      obtain ⟨h1, h2, h3, h4, h5, h6, h7, h8, h9⟩ := hinv
      have hvl : visited.length ≤ (liveIdx ns0).length :=
        visited_card_le ns0 visited h5 h3
      have hq : queue = [] := List.length_eq_zero.mp (by omega)
      subst hq
      rw [gearLoop_zero]
      constructor
      · intro _
        refine gear_closed_no_path ns0 s target visited h6.2.1 ?_ ?_
        · intro htv
          exact absurd (h7 htv) (List.not_mem_nil target)
        · intro v hv nb hnb2 ha
          rcases h4 v hv with hvq | hcl
          · exact absurd hvq (List.not_mem_nil v)
          · exact hcl nb hnb2 ha
      · intro route hr
        simp at hr
  | succ fuel ih =>
      intro ns queue visited prev hinv hfuel
      obtain ⟨h1, h2, h3, h4, h5, h6, h7, h8, h9⟩ := hinv
      cases queue with
      | nil =>
          rw [gearLoop_nil]
          constructor
          · intro _
            refine gear_closed_no_path ns0 s target visited h6.2.1 ?_ ?_
            · intro htv
              exact absurd (h7 htv) (List.not_mem_nil target)
            · intro v hv nb hnb2 ha
              rcases h4 v hv with hvq | hcl
              · exact absurd hvq (List.not_mem_nil v)
              · exact hcl nb hnb2 ha
          · intro route hr
            simp at hr
      | cons cur rest =>
          by_cases hct : cur = target
          · subst hct
            rw [gearLoop_cons_eq]
            have hcurv : cur ∈ visited := h2 cur (List.mem_cons_self _ _)
            have hidx : List.indexOf cur visited < ns.length := by
              have i1 : List.indexOf cur visited < visited.length :=
                List.indexOf_lt_length.mpr hcurv
              have i2 : visited.length ≤ (liveIdx ns0).length :=
                visited_card_le ns0 visited h5 h3
              have i3 : (liveIdx ns0).length ≤ ns0.length :=
                liveIdx_length_le ns0
              omega
            obtain ⟨r1, r2, r3, r4, r5⟩ :=
              gearReconstruct_spec ns0 s visited prev h6 ns.length cur
                hcurv hidx
            constructor
            · intro hnone
              simp at hnone
            · intro route hr
              have hroute :
                  route = (gearReconstruct prev s ns.length cur).reverse :=
                (Option.some.inj hr).symm
              subst hroute
              refine ⟨?_, ?_, ?_, ?_, ?_⟩
              · rw [List.head?_reverse]
                exact r2
              · rw [List.getLast?_reverse]
                exact r1
              · exact List.nodup_reverse.mpr r4
              · intro a ha
                exact h3 a (r3 a (List.mem_reverse.mp ha)).1
              · exact prevChainAdj_reverse ns0 _ r5
          · rw [gearLoop_cons_ne reorder target s fuel ns cur rest visited
              prev hct]
            have hcurv : cur ∈ visited := h2 cur (List.mem_cons_self _ _)
            have hperm := hre ns cur (gearCandidates ns visited cur)
            have hndc : (reorder ns cur
                (gearCandidates ns visited cur)).Nodup :=
              hperm.nodup_iff.mpr (gearCandidates_nodup ns visited cur
                (by rw [h8 cur]; exact hnb cur))
            have hcmem : ∀ nb, nb ∈ reorder ns cur
                (gearCandidates ns visited cur) ↔
                nb ∈ (getN ns0 cur).neighbors ∧
                (getN ns0 nb).alive = true ∧ nb ∉ visited := by
              intro nb
              rw [hperm.mem_iff, gearCandidates_mem, h8 cur]
              constructor
              · rintro ⟨a, b, c⟩
                exact ⟨a, by rw [← h1 nb c]; exact b, c⟩
              · rintro ⟨a, b, c⟩
                exact ⟨a, by rw [h1 nb c]; exact b, c⟩
            have hcurnot : cur ∉ reorder ns cur
                (gearCandidates ns visited cur) :=
              fun h => ((hcmem cur).mp h).2.2 hcurv
            obtain ⟨e1, e2, e3, e4, e5, e6⟩ :=
              gearExpand_spec cur (reorder ns cur
                (gearCandidates ns visited cur)) ns rest visited prev
                hndc hcurnot
            apply ih
            · refine ⟨?_, ?_, ?_, ?_, ?_, ?_, ?_, ?_, ?_⟩
              · intro i hi
                rw [e2] at hi
                have hiv : i ∉ visited :=
                  fun h => hi (List.mem_append_left _ h)
                have hic : i ∉ reorder ns cur
                    (gearCandidates ns visited cur) :=
                  fun h => hi (List.mem_append_right _ h)
                have hicur : i ≠ cur := fun h => hiv (h ▸ hcurv)
                rw [e4 i hicur hic]
                exact h1 i hiv
              · intro q hq
                rw [e1] at hq
                rw [e2]
                rcases List.mem_append.mp hq with hq | hq
                · exact List.mem_append_left _
                    (h2 q (List.mem_cons_of_mem cur hq))
                · exact List.mem_append_right _ hq
              · intro v hv
                rw [e2] at hv
                rcases List.mem_append.mp hv with hv | hv
                · exact h3 v hv
                · exact ((hcmem v).mp hv).2.1
              · intro v hv
                rw [e2] at hv
                rcases List.mem_append.mp hv with hv | hv
                · rcases h4 v hv with hvq | hcl
                  · rcases List.mem_cons.mp hvq with hvc | hvr
                    · right
                      intro nb hnbv ha
                      rw [e2]
                      by_cases hnv : nb ∈ visited
                      · exact List.mem_append_left _ hnv
                      · refine List.mem_append_right _ ?_
                        rw [hcmem nb]
                        exact ⟨hvc ▸ hnbv, ha, hnv⟩
                    · left
                      rw [e1]
                      exact List.mem_append_left _ hvr
                  · right
                    intro nb hnbv ha
                    rw [e2]
                    exact List.mem_append_left _ (hcl nb hnbv ha)
                · left
                  rw [e1]
                  exact List.mem_append_right _ hv
              · rw [e2, List.nodup_append]
                exact ⟨h5, hndc,
                  fun a ha hac => ((hcmem a).mp hac).2.2 ha⟩
              · obtain ⟨p1, p2, p3, p4⟩ := h6
                refine ⟨?_, ?_, ?_, ?_⟩
                · rw [e2, List.nodup_append]
                  exact ⟨h5, hndc,
                    fun a ha hac => ((hcmem a).mp hac).2.2 ha⟩
                · rw [e2]
                  exact List.mem_append_left _ p2
                · rw [e3 s, if_neg (fun h => ((hcmem s).mp h).2.2 p2)]
                  exact p3
                · intro v hv hne
                  rw [e2] at hv
                  rcases List.mem_append.mp hv with hv | hv
                  · obtain ⟨p, q1, q2, q3, q4⟩ := p4 v hv hne
                    refine ⟨p, ?_, ?_, q3, ?_⟩
                    · rw [e3 v,
                        if_neg (fun h => ((hcmem v).mp h).2.2 hv)]
                      exact q1
                    · rw [e2]
                      exact List.mem_append_left _ q2
                    · rw [e2, List.indexOf_append_of_mem q2,
                        List.indexOf_append_of_mem hv]
                      exact q4
                  · refine ⟨cur, ?_, ?_, ((hcmem v).mp hv).1, ?_⟩
                    · rw [e3 v, if_pos hv]
                    · rw [e2]
                      exact List.mem_append_left _ hcurv
                    · rw [e2, List.indexOf_append_of_mem hcurv,
                        List.indexOf_append_of_not_mem
                          ((hcmem v).mp hv).2.2]
                      have := List.indexOf_lt_length.mpr hcurv
                      omega
              · intro htv
                rw [e2] at htv
                rw [e1]
                rcases List.mem_append.mp htv with htv | htv
                · rcases List.mem_cons.mp (h7 htv) with htc | htr
                  · exact absurd htc.symm hct
                  · exact List.mem_append_left _ htr
                · exact List.mem_append_right _ htv
              · intro i
                rw [e5 i]
                exact h8 i
              · rw [e6]
                exact h9
            · rw [e1, e2, List.length_append, List.length_append]
              have hl : (cur :: rest).length = rest.length + 1 :=
                List.length_cons cur rest
              rw [hl] at hfuel
              omega

end WSN

namespace WSN

theorem getN_ge (ns : List SensorNode) (i : ℕ) (h : ns.length ≤ i) :
    getN ns i = default := by
  have he : ns[i]? = none := List.getElem?_eq_none h
  simp [getN, List.getD, he]

theorem gearClosest_spec (ns : List SensorNode) (sp : ℚ × ℚ) (s : ℕ)
    (h : gearClosest ns sp = some s) :
    (getN ns s).alive = true ∧
    ∀ i, (getN ns i).alive = true →
      dist2 (getN ns s).pos sp ≤ dist2 (getN ns i).pos sp := by
  simp only [gearClosest, Option.map_eq_some'] at h
  obtain ⟨⟨ch, m⟩, hfm, hch⟩ := h
  obtain ⟨hmem, hval, hmin⟩ := firstMinBy_eq_some_spec _ _ ch m hfm
  rw [List.mem_filter] at hmem
  subst hch
  refine ⟨hmem.2, ?_⟩
  intro i hi
  have hir : i ∈ (List.range ns.length).filter
      fun j => (getN ns j).alive := by
    rw [List.mem_filter, List.mem_range]
    exact ⟨alive_lt_length ns i hi, hi⟩
  have := hmin i hir
  rw [hval] at this
  exact this

end WSN

namespace WSN

/-- **C7** (`GEAR.discover_route`, gear.py lines 69–149): assuming the
BFS tie-break `reorder` only permutes the candidate list and neighbour
lists are duplicate-free, `discover_route` either returns a route that
starts at the live node closest to `start_pos`, ends at the target, has
no repeated node ids, visits only nodes that were alive at call time,
and steps only along neighbour edges — or it returns `none`, in which
case no path of live nodes following neighbour edges connects the start
node to the target. -/
theorem C7_gear_route (reorder : List SensorNode → ℕ → List ℕ → List ℕ)
    (hre : ∀ ns c l, (reorder ns c l).Perm l)
    (ns : List SensorNode) (hnb : ∀ i, (getN ns i).neighbors.Nodup)
    (start_pos : ℚ × ℚ) (target : ℕ) (fuel : ℕ)
    (hfuel : ns.length ≤ fuel)
    (s : ℕ) (hs : gearClosest ns start_pos = some s) :
    (∀ route,
      (discover_route reorder ns start_pos target fuel).1 = some route →
      route.head? = some s ∧ (getN ns s).alive = true ∧
      (∀ i, (getN ns i).alive = true →
        dist2 (getN ns s).pos start_pos ≤
          dist2 (getN ns i).pos start_pos) ∧
      route.getLast? = some target ∧ route.Nodup ∧
      (∀ a ∈ route, (getN ns a).alive = true) ∧ chainAdj ns route) ∧
    ((discover_route reorder ns start_pos target fuel).1 = none →
      ∀ l, isLivePath ns l → l.head? = some s → target ∉ l) := by
  obtain ⟨hal, hcls⟩ := gearClosest_spec ns start_pos s hs
  have hdr : discover_route reorder ns start_pos target fuel =
      gearLoop reorder target s fuel ns [s] [s] [] := by
    rw [discover_route, hs]
  have hinv : GearInv ns s target ns [s] [s] [] := by
    refine ⟨fun i _ => rfl, fun q hq => hq, ?_, ?_,
      List.nodup_singleton s, ?_, fun h => h, fun i => rfl, rfl⟩
    · intro v hv
      rw [List.mem_singleton.mp hv]
      exact hal
    · intro v hv
      left
      exact hv
    · refine ⟨List.nodup_singleton s, List.mem_singleton_self s, rfl, ?_⟩
      intro v hv hne
      exact absurd (List.mem_singleton.mp hv) hne
  have hflen : ([s] : List ℕ).length + (liveIdx ns).length ≤
      fuel + ([s] : List ℕ).length := by
    have := liveIdx_length_le ns
    simp only [List.length_singleton]
    omega
  obtain ⟨hcomp, hsound⟩ := gearLoop_spec reorder hre ns hnb s target fuel
    ns [s] [s] [] hinv hflen
  constructor
  · intro route hroute
    rw [hdr] at hroute
    obtain ⟨q1, q2, q3, q4, q5⟩ := hsound route hroute
    exact ⟨q1, hal, hcls, q2, q3, q4, q5⟩
  · intro hnone
    rw [hdr] at hnone
    exact hcomp hnone

end WSN

namespace WSN

set_option maxHeartbeats 1600000 in
theorem C7_gear_route_witness :
    gearClosest
      [({ px := 0, py := 0, energy := 1, alive := true,
          neighbors := [1] } : SensorNode),
        { px := 1, py := 0, energy := 1, alive := true,
          neighbors := [0] }] (0, 0) = some 0 ∧
    ∃ route,
      (discover_route (fun _ _ l => l)
        [({ px := 0, py := 0, energy := 1, alive := true,
            neighbors := [1] } : SensorNode),
          { px := 1, py := 0, energy := 1, alive := true,
            neighbors := [0] }] (0, 0) 1 2).1 = some route ∧
      route.head? = some 0 ∧ route.getLast? = some 1 ∧ route.Nodup ∧
      (∀ a ∈ route,
        (getN
          [({ px := 0, py := 0, energy := 1, alive := true,
              neighbors := [1] } : SensorNode),
            { px := 1, py := 0, energy := 1, alive := true,
              neighbors := [0] }] a).alive = true) ∧
      chainAdj
        [({ px := 0, py := 0, energy := 1, alive := true,
            neighbors := [1] } : SensorNode),
          { px := 1, py := 0, energy := 1, alive := true,
            neighbors := [0] }] route := by
  have hs : gearClosest
      [({ px := 0, py := 0, energy := 1, alive := true,
          neighbors := [1] } : SensorNode),
        { px := 1, py := 0, energy := 1, alive := true,
          neighbors := [0] }] (0, 0) = some 0 := by
    norm_num [gearClosest, firstMinBy, firstMinAux, getN, List.getD,
      dist2, SensorNode.pos, List.range_succ, List.filter]
  have hroute : (discover_route (fun _ _ l => l)
      [({ px := 0, py := 0, energy := 1, alive := true,
          neighbors := [1] } : SensorNode),
        { px := 1, py := 0, energy := 1, alive := true,
          neighbors := [0] }] (0, 0) 1 2).1 = some [0, 1] := by
    norm_num [discover_route, gearClosest, firstMinBy, firstMinAux,
      gearLoop, gearCandidates, gearExpand, gearReconstruct, lookupA,
      setKey, getN, setN, List.getD, transmit_sq, receive, tx_cost_sq,
      calculate_tx_energy, calculate_rx_energy, e_elec, e_amp, dist2,
      SensorNode.pos, List.range_succ, List.filter, List.contains,
      List.elem]
  have hnb : ∀ i, (getN
      [({ px := 0, py := 0, energy := 1, alive := true,
          neighbors := [1] } : SensorNode),
        { px := 1, py := 0, energy := 1, alive := true,
          neighbors := [0] }] i).neighbors.Nodup := by
    intro i
    rcases i with _ | i
    · decide
    rcases i with _ | i
    · decide
    · rw [getN_ge]
      · exact List.nodup_nil
      · simp only [List.length_cons, List.length_nil]
        omega
  obtain ⟨c1, c2, c3, c4, c5, c6, c7⟩ :=
    (C7_gear_route (fun _ _ l => l) (fun _ _ l => List.Perm.refl l) _
      hnb (0, 0) 1 2 (by norm_num) 0 hs).1 [0, 1] hroute
  exact ⟨hs, [0, 1], hroute, c1, c4, c5, c6, c7⟩

end WSN

namespace WSN

/-- **C9** (determinism; spec §5/§8 — `core/simulation.py` is absent from
`src/`, so the driver is modelled from the spec): for any two identical
configurations (same seed, same protocol choice, same every field), two
complete runs of the simulation produce identical metrics sequences —
alive_nodes, energy_levels, time_points, packets_delivered,
total_energy_consumed and network_lifetime all coincide: the simulation
is a deterministic function of its configuration. -/
theorem C9_determinism (cfg1 cfg2 : SimConfig) (h : cfg1 = cfg2) :
    (runSimulation cfg1).alive_nodes = (runSimulation cfg2).alive_nodes ∧
    (runSimulation cfg1).energy_levels =
      (runSimulation cfg2).energy_levels ∧
    (runSimulation cfg1).time_points = (runSimulation cfg2).time_points ∧
    (runSimulation cfg1).packets_delivered =
      (runSimulation cfg2).packets_delivered ∧
    (runSimulation cfg1).total_energy_consumed =
      (runSimulation cfg2).total_energy_consumed ∧
    (runSimulation cfg1).network_lifetime =
      (runSimulation cfg2).network_lifetime := by
  subst h
  exact ⟨rfl, rfl, rfl, rfl, rfl, rfl⟩

theorem C9_determinism_witness :
    ({ width := 100, height := 100, num_nodes := 10,
       base_station_position := (50, 50), comm_range := 30,
       simulation_time := 200, packet_size := 4000, seed := 42,
       protocol_type := ProtocolType.leach, p_ch := 1/20 } : SimConfig) =
      { width := 100, height := 100, num_nodes := 10,
        base_station_position := (50, 50), comm_range := 30,
        simulation_time := 200, packet_size := 4000, seed := 42,
        protocol_type := ProtocolType.leach, p_ch := 1/20 } ∧
    (runSimulation
        { width := 100, height := 100, num_nodes := 10,
          base_station_position := (50, 50), comm_range := 30,
          simulation_time := 200, packet_size := 4000, seed := 42,
          protocol_type := ProtocolType.leach, p_ch := 1/20 }).alive_nodes =
      (runSimulation
        { width := 100, height := 100, num_nodes := 10,
          base_station_position := (50, 50), comm_range := 30,
          simulation_time := 200, packet_size := 4000, seed := 42,
          protocol_type := ProtocolType.leach, p_ch := 1/20 }).alive_nodes ∧
    (runSimulation
        { width := 100, height := 100, num_nodes := 10,
          base_station_position := (50, 50), comm_range := 30,
          simulation_time := 200, packet_size := 4000, seed := 42,
          protocol_type := ProtocolType.leach,
          p_ch := 1/20 }).packets_delivered =
      (runSimulation
        { width := 100, height := 100, num_nodes := 10,
          base_station_position := (50, 50), comm_range := 30,
          simulation_time := 200, packet_size := 4000, seed := 42,
          protocol_type := ProtocolType.leach,
          p_ch := 1/20 }).packets_delivered := by
  refine ⟨rfl, ?_, ?_⟩
  · exact (C9_determinism
      { width := 100, height := 100, num_nodes := 10,
        base_station_position := (50, 50), comm_range := 30,
        simulation_time := 200, packet_size := 4000, seed := 42,
        protocol_type := ProtocolType.leach, p_ch := 1/20 }
      { width := 100, height := 100, num_nodes := 10,
        base_station_position := (50, 50), comm_range := 30,
        simulation_time := 200, packet_size := 4000, seed := 42,
        protocol_type := ProtocolType.leach, p_ch := 1/20 } rfl).1
  · exact (C9_determinism
      { width := 100, height := 100, num_nodes := 10,
        base_station_position := (50, 50), comm_range := 30,
        simulation_time := 200, packet_size := 4000, seed := 42,
        protocol_type := ProtocolType.leach, p_ch := 1/20 }
      { width := 100, height := 100, num_nodes := 10,
        base_station_position := (50, 50), comm_range := 30,
        simulation_time := 200, packet_size := 4000, seed := 42,
        protocol_type := ProtocolType.leach, p_ch := 1/20 }
      rfl).2.2.2.1

end WSN
